import Mathlib

/-!
Verification of the Dashie Photo Hub (custom_components/dashie/photo_hub.py and
photo_api.py) against its natural-language specification.

The Python code is shallowly embedded: photo metadata rows, the on-disk blob
store and the SQLite catalog become explicit Lean data, every hub operation
becomes a pure state-passing function, and the library boundaries (PIL image
decoding, EXIF extraction, MD5 hashing, the wall clock) are passed in as an
explicit `Env` of oracle functions.  Paths are modelled as the POSIX segment
lists that `pathlib` / the OS resolve them to; `..` segments are resolved the
way the OS resolves them when a file is opened.
-/

namespace Dashie

/-! ## Path model

`pathlib.PurePosixPath` parsing: a path string is split on `/`, empty segments
are dropped.  `resolveSegs` mirrors the OS-level resolution of `.` and `..`
segments that happens when `Path.exists()` / `open()` touch the file system.
-/

/-- Split a character list on `/`, dropping empty segments (mirrors the
segment parsing of `pathlib.PurePosixPath`).  `cur` is the reversed current
segment accumulator. -/
def splitChars : List Char → List Char → List String
  | [], cur => if cur = [] then [] else [String.mk cur.reverse]
  | c :: rest, cur =>
    if c = '/' then
      (if cur = [] then splitChars rest [] else String.mk cur.reverse :: splitChars rest [])
    else
      splitChars rest (c :: cur)

/-- Segments of a path string (pathlib: split on `/`, empty parts dropped). -/
def splitPath (s : String) : List String :=
  splitChars s.toList []

/-- `pathlib.PurePath.name`: the final path component (empty for an empty path). -/
def pathName (s : String) : String :=
  (splitPath s).getLastD ""

/-- Index of the last occurrence of `'.'` in a character list, if any. -/
def lastDotPos (cs : List Char) : Option Nat :=
  ((cs.enum.filter (fun p => p.2 = '.')).map (fun p => p.1)).getLast?

/-- `pathlib.PurePath.suffix`: the extension of the final component.  Python:
the part of `name` from its last dot `i` on, provided `0 < i < len(name) - 1`;
otherwise the empty string (so `".jpg"` and `"a."` have no suffix). -/
def pathSuffix (s : String) : String :=
  let n := (pathName s).toList
  match lastDotPos n with
  | none => ""
  | some i => if 0 < i ∧ i + 1 < n.length then String.mk (n.drop i) else ""

/-- OS resolution of `.` and `..` segments against an accumulated absolute
path (what the kernel does when the joined path is opened or stat-ed). -/
def resolveSegs : List String → List String → List String
  | acc, [] => acc
  | acc, seg :: rest =>
    if seg = "." then resolveSegs acc rest
    else if seg = ".." then resolveSegs acc.dropLast rest
    else resolveSegs (acc ++ [seg]) rest

/-- `str.lower()` on the ASCII strings this component handles. -/
def strLower (s : String) : String :=
  String.mk (s.toList.map Char.toLower)

/-- `name.endswith("/")` — does the string end in a slash? -/
def endsWithSlash (s : String) : Bool :=
  s.toList.getLast? = some '/'

/-! ## Constants from photo_hub.py -/

/-- `SUPPORTED_EXTENSIONS` (photo_hub.py line 30). -/
def SUPPORTED_EXTENSIONS : List String :=
  [".jpg", ".jpeg", ".png", ".webp", ".gif", ".heic"]

/-- The Home Assistant config directory, as an absolute segment list. -/
def configDir : List String := ["cfg"]

/-- `self._photos_dir = config / "dashie/photos"` — the originals root. -/
def photosDir : List String := configDir ++ ["dashie", "photos"]

/-- `self._thumbnails_dir = config / "dashie/thumbnails"`. -/
def thumbnailsDir : List String := configDir ++ ["dashie", "thumbnails"]

/-! ## Data model -/

/-- A row of the `photos` table (photo_hub.py schema, lines 92-107).
`created_at` has a non-null default (`CURRENT_TIMESTAMP`) and every code path
leaves the default in place, so it is modelled as `String`. -/
structure PhotoRow where
  id : String
  source_id : String
  filename : String
  local_path : Option String
  width : Option Nat
  height : Option Nat
  taken_at : Option String
  created_at : String
  metadata : Option String
  synced_at : Option String
  deriving Repr, DecidableEq

/-- A generated thumbnail (the output of `img.save(thumb_path, "JPEG",
quality=85)` after `img.thumbnail(THUMBNAIL_SIZE, LANCZOS)`). -/
structure ThumbData where
  width : Nat
  height : Nat
  format : String
  quality : Nat
  deriving Repr, DecidableEq

/-- Content of a file in the blob store: a raw uploaded original, or a
generated thumbnail. -/
inductive FileData where
  | raw (bytes : List Nat)
  | thumb (t : ThumbData)
  deriving Repr, DecidableEq

/-- The hub state: the `photos` catalog (rows in insertion order, as SQLite
stores them) and the file system under the config dir, keyed by resolved
absolute path segments. -/
structure HubState where
  catalog : List PhotoRow
  files : List (List String × FileData)
  deriving Repr, DecidableEq

/-- The empty, freshly initialized hub. -/
def emptyState : HubState := ⟨[], []⟩

/-- Library boundary oracles: PIL decoding (`Image.open(...).size`, `none` on
decode failure), EXIF `DateTimeOriginal` extraction, and the wall clock used
for `synced_at`.  The MD5 hex digest oracle is passed separately where used. -/
structure Env where
  decode : List Nat → Option (Nat × Nat)
  exifTakenAt : List Nat → Option String
  now : String

/-! ## File system operations -/

/-- Does a file exist at the resolved path? -/
def fileExists (st : HubState) (p : List String) : Bool :=
  (st.files.find? (fun kv => kv.1 = p)).isSome

/-- Read the file at the resolved path. -/
def readFile (st : HubState) (p : List String) : Option FileData :=
  (st.files.find? (fun kv => kv.1 = p)).map (fun kv => kv.2)

/-- Write (create or overwrite) the file at the resolved path. -/
def writeFile (st : HubState) (p : List String) (d : FileData) : HubState :=
  { st with files := (p, d) :: st.files.filter (fun kv => ¬ kv.1 = p) }

/-- Remove the file at the resolved path (no-op when absent, matching the
`if path.exists(): remove(path)` idiom in the source). -/
def removeFile (st : HubState) (p : List String) : HubState :=
  { st with files := st.files.filter (fun kv => ¬ kv.1 = p) }

/-! ## Catalog queries (photo_hub.py) -/

/-- `get_photo(photo_id)`: `SELECT * FROM photos WHERE id = ?`, first row or
`None` (photo_hub.py lines 179-190). -/
def get_photo (st : HubState) (photo_id : String) : Option PhotoRow :=
  st.catalog.find? (fun r => r.id = photo_id)

/-- SQLite `<` on two nullable TEXT values: `NULL` sorts below every string,
strings compare bytewise (UTF-8 byte order equals code-point order). -/
def optStrLtB (a b : Option String) : Bool :=
  match a, b with
  | none, none => false
  | none, some _ => true
  | some _, none => false
  | some x, some y => decide (x < y)

/-- `ORDER BY taken_at DESC, created_at DESC` as a "comes no later than"
relation on rows: `a` may precede `b` iff `a.taken_at > b.taken_at` (with
SQLite's `NULL`-lowest semantics, so `NULL`s land at the end under `DESC`),
or the `taken_at` fields tie and `a.created_at ≥ b.created_at`. -/
def rowLeB (a b : PhotoRow) : Bool :=
  optStrLtB b.taken_at a.taken_at ||
    (decide (a.taken_at = b.taken_at) && decide (b.created_at ≤ a.created_at))

/-- Propositional form of `rowLeB` for use with `List.insertionSort`. -/
def rowLe (a b : PhotoRow) : Prop := rowLeB a b = true

instance : DecidableRel rowLe := fun a b => decEq (rowLeB a b) true

/-- The `WHERE` clause of `get_photos`: `source_id` filters only when truthy
(Python: `if source_id:` — `None` and `""` both skip the filter). -/
def sourceFilter (catalog : List PhotoRow) (source_id : Option String) : List PhotoRow :=
  match source_id with
  | none => catalog
  | some s => if s = "" then catalog else catalog.filter (fun r => r.source_id = s)

/-- The full non-random ordering of the filtered catalog:
`SELECT * FROM photos [WHERE source_id = ?] ORDER BY taken_at DESC,
created_at DESC` without `LIMIT`/`OFFSET`. -/
def orderedPhotos (st : HubState) (source_id : Option String) : List PhotoRow :=
  List.insertionSort rowLe (sourceFilter st.catalog source_id)

/-- `get_photos(source_id, limit, offset, random=False)` (photo_hub.py lines
143-177): the ordered, filtered catalog with SQL `LIMIT ? OFFSET ?` applied
(offset first, then limit; both non-negative here, matching the claims'
scope).  The `random=True` branch (`ORDER BY RANDOM()`) is an unspecified
permutation and is not modelled; all claims address the non-random mode. -/
def get_photos (st : HubState) (source_id : Option String) (limit offset : Nat) :
    List PhotoRow :=
  ((orderedPhotos st source_id).drop offset).take limit

/-- `get_photo_path(photo_id)` (photo_hub.py lines 210-219): look the row up,
require a truthy `local_path` (Python: `if not photo.get("local_path")`), join
it under the originals root, and return the path iff the file exists.  Note:
no containment check of the resolved path is performed. -/
def get_photo_path (st : HubState) (photo_id : String) : Option (List String) :=
  match get_photo st photo_id with
  | none => none
  | some photo =>
    match photo.local_path with
    | none => none
    | some lp =>
      if lp = "" then none
      else
        let path := resolveSegs photosDir (splitPath lp)
        if fileExists st path then some path else none

/-- The thumbnail path for a photo id: `thumbnails_dir / f"{id}_thumb.jpg"`. -/
def thumbPathSegs (photo_id : String) : List String :=
  thumbnailsDir ++ [photo_id ++ "_thumb.jpg"]

/-! ## Thumbnail generation (photo_hub.py lines 236-252) -/

/-- PIL's `round_aspect(number, key)`: `max(min(floor(number), ceil(number),
key=key), 1)` — pick whichever of floor/ceil has the smaller key (floor on
ties, as Python's `min` keeps the first argument), then clamp to at least 1. -/
def round_aspect (number : ℚ) (key : ℤ → ℚ) : ℤ :=
  max (if key ⌊number⌋ ≤ key ⌈number⌉ then ⌊number⌋ else ⌈number⌉) 1

/-- The size computed by `img.thumbnail(THUMBNAIL_SIZE, LANCZOS)` with
`THUMBNAIL_SIZE = (400, 400)`, following PIL's `Image.thumbnail`: no resize
when the image already fits in the 400×400 box; otherwise scale the long edge
to 400 and round the other edge to the nearest integer preserving aspect. -/
def thumbnailSize (w h : Nat) : Nat × Nat :=
  if 400 ≥ w ∧ 400 ≥ h then (w, h)
  else
    let aspect : ℚ := (w : ℚ) / (h : ℚ)
    if (400 : ℚ) / 400 ≥ aspect then
      let x := round_aspect ((400 : ℚ) * aspect) (fun n => |aspect - (n : ℚ) / 400|)
      (x.toNat, 400)
    else
      let y := round_aspect ((400 : ℚ) / aspect)
        (fun n => if n = 0 then 0 else |aspect - (400 : ℚ) / (n : ℚ)|)
      (400, y.toNat)

/-- `_generate_thumbnail` body: decode the source image, fit it into the
400×400 box and re-encode as JPEG at quality 85; `none` when decoding raises
(the function then returns `False` and writes nothing). -/
def generateThumb (env : Env) (src : FileData) : Option ThumbData :=
  match src with
  | .thumb t => some ⟨(thumbnailSize t.width t.height).1, (thumbnailSize t.width t.height).2, "JPEG", 85⟩
  | .raw bytes =>
    match env.decode bytes with
    | none => none
    | some (w, h) => some ⟨(thumbnailSize w h).1, (thumbnailSize w h).2, "JPEG", 85⟩

/-- `get_thumbnail_path(photo_id)` (photo_hub.py lines 221-234): serve the
cached thumbnail if present, otherwise generate it from the original (when the
original resolves and decodes) and serve it; `none` when neither works. -/
def get_thumbnail_path (env : Env) (st : HubState) (photo_id : String) :
    HubState × Option (List String) :=
  let tpath := thumbPathSegs photo_id
  if fileExists st tpath then (st, some tpath)
  else
    match get_photo_path st photo_id with
    | none => (st, none)
    | some ppath =>
      match readFile st ppath with
      | none => (st, none)
      | some fd =>
        match generateThumb env fd with
        | none => (st, none)
        | some t => (writeFile st tpath (.thumb t), some tpath)

/-! ## Ingest (photo_hub.py lines 254-343) -/

/-- `_sanitize_filename` (photo_hub.py lines 457-461): keep alphanumerics and
`._- `, drop everything else; fall back to `"unnamed"` when nothing is left.
(`Char.isAlphanum` matches Python's `str.isalnum` on the ASCII inputs the
claims quantify over.) -/
def sanitize_filename (filename : String) : String :=
  let safe := String.mk (filename.toList.filter
    (fun c => c.isAlphanum || c ∈ ['.', '_', '-', ' ']))
  if safe = "" then "unnamed" else safe

/-- First 8 characters of the freshly generated photo id (`photo_id[:8]`). -/
def take8 (s : String) : String := String.mk (s.toList.take 8)

/-- The relative path `f"{source_id}/{photo_id[:8]}_{safe_filename}"` stored
in the catalog and used to place the blob under the originals root. -/
def relativePathOf (photo_id source_id safe_filename : String) : String :=
  source_id ++ "/" ++ (take8 photo_id ++ "_" ++ safe_filename)

/-- `add_photo(file_data, filename, source_id)` (photo_hub.py lines 254-316).
The freshly generated `uuid4` is passed in as `photo_id`.  Rejects (returning
`none` and leaving the state untouched) when the sanitized filename's
lower-cased suffix is unsupported; otherwise writes the blob, decodes
dimensions and EXIF date best-effort, and inserts the catalog row. -/
def add_photo (env : Env) (st : HubState) (photo_id : String) (file_data : List Nat)
    (filename : String) (source_id : String) (metadata : Option String) :
    HubState × Option String :=
  let safe_filename := sanitize_filename filename
  let ext := strLower (pathSuffix safe_filename)
  if ext ∈ SUPPORTED_EXTENSIONS then
    let relative_path := relativePathOf photo_id source_id safe_filename
    let abs_path := resolveSegs photosDir (splitPath relative_path)
    let st1 := writeFile st abs_path (.raw file_data)
    let dims := env.decode file_data
    let row : PhotoRow :=
      { id := photo_id
        source_id := source_id
        filename := filename
        local_path := some relative_path
        width := dims.map Prod.fst
        height := dims.map Prod.snd
        taken_at := env.exifTakenAt file_data
        created_at := env.now
        metadata := metadata
        synced_at := some env.now }
    ({ st1 with catalog := st1.catalog ++ [row] }, some photo_id)
  else
    (st, none)

/-- `delete_photo(photo_id)` (photo_hub.py lines 318-343): `False` and no
filesystem access when the row is missing; otherwise remove the original blob
(when `local_path` is truthy), the thumbnail, and the catalog row. -/
def delete_photo (st : HubState) (photo_id : String) : HubState × Bool :=
  match get_photo st photo_id with
  | none => (st, false)
  | some photo =>
    let st1 :=
      match photo.local_path with
      | none => st
      | some lp =>
        if lp = "" then st
        else removeFile st (resolveSegs photosDir (splitPath lp))
    let st2 := removeFile st1 (thumbPathSegs photo_id)
    ({ st2 with catalog := st2.catalog.filter (fun r => ¬ r.id = photo_id) }, true)

/-! ## ZIP import (photo_hub.py lines 345-407) -/

instance {ε α : Type} [DecidableEq ε] [DecidableEq α] : DecidableEq (Except ε α) := fun a b =>
  match a, b with
  | .ok x, .ok y =>
    if h : x = y then isTrue (by rw [h]) else isFalse (fun hh => h (Except.ok.inj hh))
  | .error e, .error f =>
    if h : e = f then isTrue (by rw [h]) else isFalse (fun hh => h (Except.error.inj hh))
  | .ok _, .error _ => isFalse (fun hh => Except.noConfusion hh)
  | .error _, .ok _ => isFalse (fun hh => Except.noConfusion hh)

/-- One entry of a ZIP archive: its stored name and the outcome of
`zf.read(name)` — `.ok` with the decompressed bytes, or `.error` with the
exception text when the entry is corrupt (CRC mismatch / truncated data make
`zipfile` raise on read). -/
structure ZipEntry where
  name : String
  content : Except String (List Nat)
  deriving Repr, DecidableEq

/-- The byte string handed to `zipfile.ZipFile(BytesIO(...))`, classified the
way `zipfile` classifies it: either a well-formed archive with its entry list,
or bytes that are not a valid ZIP archive at all (no end-of-central-directory
record — in particular any input shorter than the 22-byte EOCD, such as the
zero-byte string, is in this class and makes the constructor raise
`BadZipFile`). -/
inductive ZipInput where
  | invalid (nbytes : Nat)
  | archive (entries : List ZipEntry)
  deriving Repr, DecidableEq

/-- `zipfile.ZipFile(BytesIO(data))` at the library boundary: raises
`BadZipFile` on input that is not a valid archive, else yields the entries in
`namelist()` order. -/
def zipOpen : ZipInput → Except String (List ZipEntry)
  | .invalid _ => .error "BadZipFile"
  | .archive es => .ok es

/-- The summary dict returned by `import_zip`. -/
structure ImportSummary where
  imported : Nat
  skipped : Nat
  errors : List (String × String)
  photo_ids : List String
  deriving Repr, DecidableEq

/-- The extraction loop of `import_zip` (`_extract_and_import`): walk
`namelist()`, skip directories (names ending in `/`), record unsupported
extensions in `skipped`, read each remaining entry — a raised read becomes an
`errors` item, a successful read becomes an item `(filename, data, md5-hex)`
queued for `add_photo`. -/
def extractPhase (md5hex : List Nat → String) :
    List ZipEntry → List (String × List Nat × String) × List String × List (String × String)
  | [] => ([], [], [])
  | e :: rest =>
    let (items, skipped, errors) := extractPhase md5hex rest
    if endsWithSlash e.name then (items, skipped, errors)
    else if strLower (pathSuffix e.name) ∈ SUPPORTED_EXTENSIONS then
      match e.content with
      | .ok data => ((pathName e.name, data, md5hex data) :: items, skipped, errors)
      | .error msg => (items, skipped, (e.name, msg) :: errors)
    else (items, e.name :: skipped, errors)

/-- The add loop of `import_zip`: `add_photo(item.data, item.filename,
source_id="imported")` for each extracted item (a fresh uuid `ids (k+j)` is
drawn per call), collecting the ids of the successful adds.  The md5 hash
carried in each item is not consulted.  Returns the added ids, the final
state, and the next fresh-id index. -/
def addLoop (env : Env) (ids : Nat → String) :
    Nat → List (String × List Nat × String) → HubState → List String × HubState × Nat
  | k, [], st => ([], st, k)
  | k, (filename, data, _hash) :: rest, st =>
    let (st1, res) := add_photo env st (ids k) data filename "imported" none
    let (added, st2, k2) := addLoop env ids (k + 1) rest st1
    match res with
    | some pid => (pid :: added, st2, k2)
    | none => (added, st2, k2)

/-- `import_zip(zip_data)` (photo_hub.py lines 345-407): open the archive
(a `BadZipFile` raised by the constructor propagates out of the executor job —
nothing catches it), run the extraction loop, then add every extracted item,
and report `imported` = number of successful adds, `skipped`, `errors`, and
the first 10 new ids. -/
def import_zip (md5hex : List Nat → String) (env : Env) (ids : Nat → String)
    (k : Nat) (zip_data : ZipInput) (st : HubState) :
    Except String (ImportSummary × HubState × Nat) :=
  match zipOpen zip_data with
  | .error e => .error e
  | .ok entries =>
    let (items, skipped, errors) := extractPhase md5hex entries
    let (added_ids, st', k') := addLoop env ids k items st
    .ok ({ imported := added_ids.length
           skipped := skipped.length
           errors := errors
           photo_ids := added_ids.take 10 }, st', k')

/-! ## Local folder scan (photo_hub.py lines 463-520) -/

/-- `_find_photo_by_path(path)` (photo_hub.py lines 507-520): look the final
path component up as a `filename` in the `'local'` source. -/
def find_photo_by_path (st : HubState) (path : String) : Option PhotoRow :=
  let filename := pathName path
  st.catalog.find? (fun r => r.filename = filename && r.source_id = "local")

/-- A directory entry as seen by `Path.iterdir()`: its name, whether it is a
regular file, and its content (reads are modelled as succeeding; the `except`
around the read only logs). -/
structure DirEntry where
  name : String
  isFile : Bool
  content : List Nat
  deriving Repr, DecidableEq

/-- The per-entry body of `scan_local_folder`'s loop: skip non-files and
unsupported suffixes, skip entries already catalogued under `'local'` by
filename, otherwise `add_photo(data, file_path.name, source_id="local")`
(drawing one fresh uuid) and count the successful adds. -/
def scanLoop (env : Env) (ids : Nat → String) (folderPath : String) :
    Nat → List DirEntry → HubState → HubState × Nat × Nat
  | k, [], st => (st, k, 0)
  | k, e :: rest, st =>
    if e.isFile then
      let filePathStr := folderPath ++ "/" ++ e.name
      if strLower (pathSuffix filePathStr) ∈ SUPPORTED_EXTENSIONS then
        if (find_photo_by_path st filePathStr).isSome then
          scanLoop env ids folderPath k rest st
        else
          let (st1, res) := add_photo env st (ids k) e.content (pathName filePathStr) "local" none
          let (st2, k2, n) := scanLoop env ids folderPath (k + 1) rest st1
          match res with
          | some _ => (st2, k2, n + 1)
          | none => (st2, k2, n)
      else scanLoop env ids folderPath k rest st
    else scanLoop env ids folderPath k rest st

/-- `scan_local_folder(folder_path)` (photo_hub.py lines 463-505): `0` when
the folder does not exist, else the loop above over `iterdir()`. -/
def scan_local_folder (env : Env) (ids : Nat → String) (k : Nat)
    (folder : Option (List DirEntry)) (folderPath : String) (st : HubState) :
    HubState × Nat × Nat :=
  match folder with
  | none => (st, k, 0)
  | some entries => scanLoop env ids folderPath k entries st

/-! ## HTTP layer (photo_api.py) -/

/-- Responses of the image view, restricted to what `DashiePhotoImageView.get`
can produce once the hub is initialized. -/
inductive ApiResponse where
  | notFound
  | fileResponse (path : List String) (content : Option FileData)
  deriving Repr, DecidableEq

/-- `DashiePhotoImageView.get` (photo_api.py lines 140-165): 404 when
`get_photo_path` yields nothing, otherwise a `FileResponse` streaming the file
at the returned path. -/
def photoImageView (st : HubState) (photo_id : String) : ApiResponse :=
  match get_photo_path st photo_id with
  | none => .notFound
  | some p => .fileResponse p (readFile st p)

/-! ## Concrete fixtures used by witnesses and counterexamples -/

/-- An environment whose decoder accepts everything as a 10×10 image. -/
def envFix : Env := ⟨fun _ => some (10, 10), fun _ => none, "2026-01-01 00:00:00"⟩

/-- A fixed md5 oracle. -/
def md5Fix : List Nat → String := fun _ => "d41d8cd98f00b204e9800998ecf8427e"

/-- A fresh-uuid supply: distinct ids of strictly growing length. -/
def idsFix : Nat → String := fun n => String.mk (List.replicate (n + 1) 'x')

/-- A catalog row whose stored `local_path` smuggles `..` segments — the
"hypothetically tampered" row of the traversal claim. -/
def tamperedRow : PhotoRow :=
  { id := "p1", source_id := "imported", filename := "x", local_path := some "../../secret.txt",
    width := none, height := none, taken_at := none, created_at := "2026-01-01 00:00:00",
    metadata := none, synced_at := none }

/-- Hub state holding the tampered row, with a real file sitting outside the
originals root at the resolved location `cfg/secret.txt`. -/
def tamperedState : HubState :=
  ⟨[tamperedRow], [(["cfg", "secret.txt"], .raw [9, 9])]⟩

/-- C1: with the tampered row in the catalog, `get_photo_path` resolves
`photos_dir / "../../secret.txt"` to `cfg/secret.txt` — outside the originals
root — and `GET /photos/p1/image` serves that outside file instead of
returning not-found.  No containment verification exists in the code. -/
theorem c1_traversal_not_contained :
    tamperedRow.local_path = some "../../secret.txt" ∧
    get_photo_path tamperedState "p1" = some ["cfg", "secret.txt"] ∧
    photosDir.isPrefixOf ["cfg", "secret.txt"] = false ∧
    photoImageView tamperedState "p1" =
      .fileResponse ["cfg", "secret.txt"] (some (.raw [9, 9])) := by
  refine ⟨rfl, by decide, by decide, by decide⟩

/-- C8 counterexample: zero-byte input is not a valid ZIP archive, so the
`zipfile.ZipFile` constructor raises `BadZipFile`; `import_zip` does not catch
it (the per-entry `try` only wraps `zf.read`), so the call raises instead of
returning a summary with zero imported and zero errors. -/
theorem c8_zero_byte_raises :
    import_zip md5Fix envFix idsFix 0 (.invalid 0) emptyState = .error "BadZipFile" := rfl

/-- C8 (amended): on an empty but well-formed ZIP archive, `import_zip`
completes without raising and reports `imported = 0`, `skipped = 0`, and an
empty `errors` list, leaving the hub state untouched. -/
theorem c8_empty_archive_ok (md5 : List Nat → String) (env : Env)
    (ids : Nat → String) (k : Nat) (st : HubState) :
    import_zip md5 env ids k (.archive []) st =
      .ok ({ imported := 0, skipped := 0, errors := [], photo_ids := [] }, st, k) := rfl

/-! ## C4: add then retrieve is the identity on bytes -/

/-- The stored relative path always contains a `/`, hence is never empty
(so it passes `if not photo.get("local_path")`). -/
lemma relativePathOf_ne_empty (pid src safe : String) : relativePathOf pid src safe ≠ "" := by
  intro h
  have hd : (relativePathOf pid src safe).data = "".data := congrArg String.data h
  simp only [relativePathOf, String.data_append] at hd
  simp at hd

/-- `find?` over a list extended on the right by the unique match. -/
lemma find?_append_singleton {α} (l : List α) (p : α → Bool) (a : α)
    (hl : ∀ x ∈ l, p x = false) (ha : p a = true) : (l ++ [a]).find? p = some a := by
  induction l with
  | nil => simp [List.find?_cons, ha]
  | cons x xs ih =>
    have hx : p x = false := hl x (List.mem_cons_self x xs)
    simp only [List.cons_append, List.find?_cons, hx]
    exact ih (fun y hy => hl y (List.mem_cons_of_mem x hy))

/-- C4: whenever `add_photo` succeeds (returning an id), reading the original
back through `get_photo_path` — the path `GET /photos/{id}/image` serves —
yields exactly the input bytes.  The freshness hypothesis reflects that the
id is a freshly generated `uuid4`. -/
theorem c4_add_photo_roundtrip (env : Env) (st : HubState) (pid : String)
    (data : List Nat) (filename source_id : String) (meta : Option String)
    (st' : HubState)
    (hfresh : ∀ r ∈ st.catalog, r.id ≠ pid)
    (hadd : add_photo env st pid data filename source_id meta = (st', some pid)) :
    ∃ p, get_photo_path st' pid = some p ∧ readFile st' p = some (.raw data) := by
  by_cases hext : strLower (pathSuffix (sanitize_filename filename)) ∈ SUPPORTED_EXTENSIONS
  · rw [add_photo, if_pos hext] at hadd
    obtain ⟨hst, -⟩ := Prod.mk.injEq .. ▸ hadd
    set rel := relativePathOf pid source_id (sanitize_filename filename) with hrel
    set path := resolveSegs photosDir (splitPath rel) with hpath
    refine ⟨path, ?_, ?_⟩
    · have hfind : get_photo st' pid = some
        { id := pid, source_id := source_id, filename := filename,
          local_path := some rel,
          width := (env.decode data).map Prod.fst, height := (env.decode data).map Prod.snd,
          taken_at := env.exifTakenAt data, created_at := env.now,
          metadata := meta, synced_at := some env.now } := by
        rw [← hst]
        unfold get_photo
        exact find?_append_singleton _ _ _
          (fun r hr => by simp [hfresh r hr]) (by simp)
      rw [get_photo_path, hfind]
      simp only [relativePathOf_ne_empty pid source_id (sanitize_filename filename),
        if_false, ← hpath]
      have hex : fileExists st' path = true := by
        rw [← hst]
        simp [fileExists, writeFile, List.find?_cons, hpath]
      simp [hex]
    · rw [← hst]
      simp [readFile, writeFile, List.find?_cons]
  · rw [add_photo, if_neg hext] at hadd
    exact absurd (congrArg Prod.snd hadd) (by simp)

/-- C4 witness: a concrete JPEG-named upload on the empty hub round-trips. -/
theorem c4_witness :
    (∀ r ∈ emptyState.catalog, r.id ≠ "0123456789ab") ∧
    ∃ p, get_photo_path
        (add_photo envFix emptyState "0123456789ab" [1, 2, 3] "a.jpg" "imported" none).1
        "0123456789ab" = some p ∧
      readFile (add_photo envFix emptyState "0123456789ab" [1, 2, 3] "a.jpg" "imported" none).1
        p = some (.raw [1, 2, 3]) :=
  ⟨by decide, c4_add_photo_roundtrip envFix emptyState "0123456789ab" [1, 2, 3] "a.jpg"
    "imported" none _ (by decide) rfl⟩

/-! ## C9: delete removes row, original, and thumbnail -/

/-- Removing a path makes it absent. -/
lemma fileExists_removeFile_self (st : HubState) (p : List String) :
    fileExists (removeFile st p) p = false := by
  have hnone : ((st.files.filter (fun kv => ¬ kv.1 = p)).find? (fun kv => kv.1 = p)) = none := by
    rw [List.find?_eq_none]
    intro kv hkv
    have h2 := (List.mem_filter.mp hkv).2
    simpa using h2
  simp [fileExists, removeFile, hnone]

/-- A path present after a removal was present before it. -/
lemma fileExists_removeFile_le (st : HubState) (q p : List String)
    (h : fileExists (removeFile st q) p = true) : fileExists st p = true := by
  simp only [fileExists, removeFile, List.find?_isSome] at h ⊢
  obtain ⟨kv, hkv, hp⟩ := h
  exact ⟨kv, (List.mem_filter.mp hkv).1, hp⟩

/-- Dropping all rows with a given id makes its lookup fail. -/
lemma get_photo_filter_out (c : List PhotoRow) (fs : List (List String × FileData))
    (pid : String) :
    get_photo ⟨c.filter (fun r => ¬ r.id = pid), fs⟩ pid = none := by
  rw [get_photo, List.find?_eq_none]
  intro r hr
  have h2 := (List.mem_filter.mp hr).2
  simpa using h2

/-- C9: `delete_photo` returns true exactly when the catalog row exists, does
nothing at all when it does not, and on success the row, the original blob
(when a truthy `local_path` was stored) and the thumbnail are all gone, so a
subsequent metadata, image, or thumbnail fetch reports not-found. -/
theorem c9_delete_photo_spec (env : Env) (st : HubState) (pid : String) :
    ((delete_photo st pid).2 = (get_photo st pid).isSome) ∧
    (get_photo st pid = none → delete_photo st pid = (st, false)) ∧
    ((delete_photo st pid).2 = true →
      get_photo (delete_photo st pid).1 pid = none ∧
      get_photo_path (delete_photo st pid).1 pid = none ∧
      (get_thumbnail_path env (delete_photo st pid).1 pid).2 = none ∧
      fileExists (delete_photo st pid).1 (thumbPathSegs pid) = false ∧
      (∀ photo, get_photo st pid = some photo → ∀ lp, photo.local_path = some lp → lp ≠ "" →
        fileExists (delete_photo st pid).1 (resolveSegs photosDir (splitPath lp)) = false)) := by
  cases hgp : get_photo st pid with
  | none =>
    refine ⟨by simp [delete_photo, hgp], fun _ => by simp [delete_photo, hgp], fun habs => ?_⟩
    rw [delete_photo, hgp] at habs
    exact absurd habs (by simp)
  | some photo =>
    obtain ⟨Y, hY, hYthumb, hYblob⟩ :
        ∃ Y : HubState,
          delete_photo st pid = (⟨Y.catalog.filter (fun r => ¬ r.id = pid), Y.files⟩, true) ∧
          fileExists Y (thumbPathSegs pid) = false ∧
          (∀ lp, photo.local_path = some lp → lp ≠ "" →
            fileExists Y (resolveSegs photosDir (splitPath lp)) = false) := by
      refine ⟨removeFile
        (match photo.local_path with
         | none => st
         | some lp => if lp = "" then st else removeFile st (resolveSegs photosDir (splitPath lp)))
        (thumbPathSegs pid), ?_, fileExists_removeFile_self _ _, ?_⟩
      · rw [delete_photo, hgp]
      · intro lp hlp hne
        rw [hlp]
        simp only [hne, if_false]
        set blob := resolveSegs photosDir (splitPath lp) with hblob
        cases hfin : fileExists (removeFile (removeFile st blob) (thumbPathSegs pid)) blob with
        | false => rfl
        | true =>
          have h2 := fileExists_removeFile_le _ _ _ hfin
          rw [fileExists_removeFile_self st blob] at h2
          exact absurd h2 (by simp)
    refine ⟨by rw [hY]; rfl,
      fun hnone => absurd hnone (by simp),
      fun _ => ⟨?_, ?_, ?_, ?_, ?_⟩⟩
    · rw [hY]
      exact get_photo_filter_out _ _ _
    · rw [hY, get_photo_path, get_photo_filter_out]
    · rw [hY, get_thumbnail_path]
      have hfe : fileExists (⟨Y.catalog.filter (fun r => ¬ r.id = pid), Y.files⟩ : HubState)
          (thumbPathSegs pid) = false := hYthumb
      rw [hfe]
      simp only [Bool.false_eq_true, if_false, get_photo_path, get_photo_filter_out]
    · rw [hY]
      exact hYthumb
    · intro photo' hphoto' lp hlp hne
      have hpp : photo' = photo := (Option.some.inj hphoto').symm
      subst hpp
      rw [hY]
      exact hYblob lp hlp hne


/-- C9 witness: instantiation on a one-photo hub. -/
theorem c9_witness :
    ((delete_photo tamperedState "p1").2 = (get_photo tamperedState "p1").isSome) ∧
    (get_photo tamperedState "p1" = none → delete_photo tamperedState "p1" = (tamperedState, false)) ∧
    ((delete_photo tamperedState "p1").2 = true →
      get_photo (delete_photo tamperedState "p1").1 "p1" = none ∧
      get_photo_path (delete_photo tamperedState "p1").1 "p1" = none ∧
      (get_thumbnail_path envFix (delete_photo tamperedState "p1").1 "p1").2 = none ∧
      fileExists (delete_photo tamperedState "p1").1 (thumbPathSegs "p1") = false ∧
      (∀ photo, get_photo tamperedState "p1" = some photo →
        ∀ lp, photo.local_path = some lp → lp ≠ "" →
        fileExists (delete_photo tamperedState "p1").1
          (resolveSegs photosDir (splitPath lp)) = false)) :=
  c9_delete_photo_spec envFix tamperedState "p1"

/-! ## C3: LIMIT/OFFSET pagination -/

/-- Generic pagination: taking pages of size `L` at offsets `0, L, 2L, …`
and concatenating enough of them reconstructs the list exactly once. -/
lemma join_pages {α : Type} (L : Nat) (_hL : 0 < L) :
    ∀ (n : Nat) (l : List α), l.length ≤ L * n →
      ((List.range n).map (fun i => (l.drop (i * L)).take L)).flatten = l := by
  intro n
  induction n with
  | zero =>
    intro l h
    have hl : l = [] := List.eq_nil_of_length_eq_zero (Nat.le_zero.mp (by simpa using h))
    simp [hl]
  | succ n ih =>
    intro l h
    rw [List.range_succ_eq_map]
    simp only [List.map_cons, List.map_map, List.flatten_cons, Nat.zero_mul, List.drop_zero]
    have hmap : List.map ((fun i => (l.drop (i * L)).take L) ∘ Nat.succ) (List.range n)
        = List.map (fun i => (((l.drop L).drop (i * L)).take L)) (List.range n) := by
      apply List.map_congr_left
      intro i _
      simp only [Function.comp_apply]
      rw [List.drop_drop]
      congr 2
      calc Nat.succ i * L = i * L + L := Nat.succ_mul i L
        _ = L + i * L := Nat.add_comm _ _
    rw [hmap, ih (l.drop L) (by
      rw [List.length_drop]
      have h' : l.length ≤ L * n + L := by rw [Nat.mul_succ] at h; exact h
      exact Nat.sub_le_iff_le_add.mpr h')]
    exact List.take_append_drop L l

/-- C3: with non-negative limit `L` and offset `O`, the page has exactly
`max 0 (min L (N - O))` records (`N` the filtered-catalog size) — in
particular the empty list, not an error, once `O ≥ N` — and concatenating
successive pages of any positive size `L` (enough of them to cover `N`)
reconstructs the full non-random ordering exactly once. -/
theorem c3_get_photos_pagination (st : HubState) (src : Option String) (L O : Nat) :
    (((get_photos st src L O).length : ℤ) =
      max 0 (min (L : ℤ) (((sourceFilter st.catalog src).length : ℤ) - (O : ℤ)))) ∧
    ((sourceFilter st.catalog src).length ≤ O → get_photos st src L O = []) ∧
    (∀ n, 0 < L → (sourceFilter st.catalog src).length ≤ L * n →
      ((List.range n).map (fun i => get_photos st src L (i * L))).flatten =
        orderedPhotos st src) := by
  have hlen : (orderedPhotos st src).length = (sourceFilter st.catalog src).length :=
    (List.perm_insertionSort rowLe _).length_eq
  refine ⟨?_, ?_, ?_⟩
  · have hnat : (get_photos st src L O).length =
        min L ((sourceFilter st.catalog src).length - O) := by
      simp [get_photos, List.length_take, List.length_drop, hlen]
    omega
  · intro hO
    have hdrop : (orderedPhotos st src).drop O = [] := by
      apply List.drop_eq_nil_of_le
      rw [hlen]
      exact hO
    rw [get_photos, hdrop, List.take_nil]
  · intro n hL hn
    have := join_pages L hL n (orderedPhotos st src) (hlen ▸ hn)
    simpa [get_photos] using this

/-- C3 witness: a three-photo catalog paged with `L = 2`, including an
offset beyond the end and full page-joining with two pages. -/
theorem c3_witness :
    (((get_photos tamperedState none 2 5).length : ℤ) =
      max 0 (min (2 : ℤ) (((sourceFilter tamperedState.catalog none).length : ℤ) - (5 : ℤ)))) ∧
    ((sourceFilter tamperedState.catalog none).length ≤ 5 →
      get_photos tamperedState none 2 5 = []) ∧
    (∀ n, 0 < 2 → (sourceFilter tamperedState.catalog none).length ≤ 2 * n →
      ((List.range n).map (fun i => get_photos tamperedState none 2 (i * 2))).flatten =
        orderedPhotos tamperedState none) :=
  c3_get_photos_pagination tamperedState none 2 5

/-! ## C7: the non-random ordering -/

/-- Unfolded form of the row comparison. -/
lemma rowLe_iff (a b : PhotoRow) : rowLe a b ↔
    (optStrLtB b.taken_at a.taken_at = true ∨
      (a.taken_at = b.taken_at ∧ b.created_at ≤ a.created_at)) := by
  simp [rowLe, rowLeB, Bool.or_eq_true, Bool.and_eq_true, decide_eq_true_eq]

/-- SQLite value-`<` is transitive. -/
lemma optStrLtB_trans {a b c : Option String} (h1 : optStrLtB a b = true)
    (h2 : optStrLtB b c = true) : optStrLtB a c = true := by
  cases a <;> cases b <;> cases c <;>
    simp [optStrLtB, decide_eq_true_eq] at h1 h2 ⊢
  exact lt_trans h1 h2

/-- SQLite value-`<` is trichotomous. -/
lemma optStrLtB_total_eq (a b : Option String) :
    optStrLtB a b = true ∨ optStrLtB b a = true ∨ a = b := by
  cases a with
  | none => cases b with
    | none => exact Or.inr (Or.inr rfl)
    | some y => exact Or.inl (by simp [optStrLtB])
  | some x => cases b with
    | none => exact Or.inr (Or.inl (by simp [optStrLtB]))
    | some y =>
      rcases lt_trichotomy x y with h | h | h
      · exact Or.inl (by simp [optStrLtB, h])
      · exact Or.inr (Or.inr (by rw [h]))
      · exact Or.inr (Or.inl (by simp [optStrLtB, h]))

instance : IsTrans PhotoRow rowLe := by
  constructor
  intro a b c hab hbc
  rw [rowLe_iff] at hab hbc ⊢
  rcases hab with h1 | ⟨e1, l1⟩
  · rcases hbc with h2 | ⟨e2, l2⟩
    · exact Or.inl (optStrLtB_trans h2 h1)
    · exact Or.inl (e2 ▸ h1)
  · rcases hbc with h2 | ⟨e2, l2⟩
    · exact Or.inl (e1 ▸ h2)
    · exact Or.inr ⟨e1.trans e2, le_trans l2 l1⟩

instance : IsTotal PhotoRow rowLe := by
  constructor
  intro a b
  rw [rowLe_iff, rowLe_iff]
  rcases optStrLtB_total_eq b.taken_at a.taken_at with h | h | h
  · exact Or.inl (Or.inl h)
  · exact Or.inr (Or.inl h)
  · rcases le_total b.created_at a.created_at with hl | hl
    · exact Or.inl (Or.inr ⟨h.symm, hl⟩)
    · exact Or.inr (Or.inr ⟨h, hl⟩)

/-- Modelled from the spec's words: the claimed "effective timestamp" of a
photo — `taken_at`, falling back to `created_at` when `taken_at` is null. -/
def specEffectiveTs (r : PhotoRow) : String := r.taken_at.getD r.created_at

/-- Modelled from the spec's words: the claim's reading of "newest first" —
every photo is placed according to its effective timestamp relative to the
other photos' effective timestamps (pairwise non-increasing). -/
def claimedNewestFirst (l : List PhotoRow) : Prop :=
  l.Pairwise (fun a b => specEffectiveTs b ≤ specEffectiveTs a)

/-- A photo taken in 2000 (old `taken_at`, old `created_at`). -/
def rowTaken2000 : PhotoRow :=
  { id := "a", source_id := "imported", filename := "a.jpg", local_path := some "imported/a.jpg",
    width := none, height := none, taken_at := some "2000-01-01T00:00:00",
    created_at := "1999-06-01 00:00:00", metadata := none, synced_at := none }

/-- A photo with no EXIF date but a recent `created_at` (2025). -/
def rowNull2025 : PhotoRow :=
  { id := "b", source_id := "imported", filename := "b.jpg", local_path := some "imported/b.jpg",
    width := none, height := none, taken_at := none,
    created_at := "2025-01-01 00:00:00", metadata := none, synced_at := none }

/-- A two-photo hub exercising the null-`taken_at` ordering. -/
def nullOrderState : HubState := ⟨[rowNull2025, rowTaken2000], []⟩

/-- C7 counterexample: SQLite's `ORDER BY taken_at DESC` sorts NULLs *last*
(NULL is below every value, and `DESC` reverses), so the null-`taken_at`
photo created in 2025 comes after the photo taken in 2000 — its effective
timestamp (2025) is strictly larger than that of the photo before it, so the
output is not ordered by effective timestamp as the claim reads. -/
theorem c7_nulls_not_interleaved :
    get_photos nullOrderState none 100 0 = [rowTaken2000, rowNull2025] ∧
    specEffectiveTs rowTaken2000 < specEffectiveTs rowNull2025 ∧
    ¬ claimedNewestFirst (get_photos nullOrderState none 100 0) := by
  have hout : get_photos nullOrderState none 100 0 = [rowTaken2000, rowNull2025] := by decide
  have hlt : specEffectiveTs rowTaken2000 < specEffectiveTs rowNull2025 := by
    show ("2000-01-01T00:00:00" : String) < ("2025-01-01 00:00:00" : String)
    rw [String.lt_iff_toList_lt]
    decide
  refine ⟨hout, hlt, fun hclaim => ?_⟩
  rw [claimedNewestFirst, hout] at hclaim
  have hle : specEffectiveTs rowNull2025 ≤ specEffectiveTs rowTaken2000 :=
    (List.pairwise_cons.mp hclaim).1 rowNull2025 (List.mem_cons_self _ _)
  exact absurd hlt (not_lt.mpr hle)

/-- The amended ordering relation: a null-`taken_at` row is never followed by
a non-null one (nulls last); two non-null rows are ordered by `taken_at`
descending with `created_at` descending as tie-break; two null rows are
ordered by `created_at` descending. -/
def newestFirstOk (a b : PhotoRow) : Prop :=
  (a.taken_at = none → b.taken_at = none ∧ b.created_at ≤ a.created_at) ∧
  (∀ x y, a.taken_at = some x → b.taken_at = some y →
    y < x ∨ (y = x ∧ b.created_at ≤ a.created_at))

/-- Every pairwise comparison allowed by the SQL ordering satisfies the
amended "newest first, nulls last" description. -/
lemma rowLe_newestFirstOk {a b : PhotoRow} (h : rowLe a b) : newestFirstOk a b := by
  rw [rowLe_iff] at h
  constructor
  · intro hat
    rw [hat] at h
    rcases h with h | ⟨he, hle⟩
    · cases hbt : b.taken_at with
      | none => exact absurd (hbt ▸ h) (by simp [optStrLtB])
      | some y => exact absurd (hbt ▸ h) (by simp [optStrLtB])
    · exact ⟨he.symm, hle⟩
  · intro x y hat hbt
    rw [hat, hbt] at h
    rcases h with h | ⟨he, hle⟩
    · exact Or.inl (by simpa [optStrLtB, decide_eq_true_eq] using h)
    · exact Or.inr ⟨(Option.some.inj he).symm, hle⟩

/-- C7 (amended): in non-random mode, `get_photos` output is pairwise ordered
newest-first with nulls last: by `taken_at` descending among non-null rows
(ties broken by `created_at` descending), all null-`taken_at` rows after all
non-null ones, and the null group by `created_at` descending. -/
theorem c7_newest_first_nulls_last (st : HubState) (src : Option String) (L O : Nat) :
    (get_photos st src L O).Pairwise newestFirstOk := by
  have hsorted : (orderedPhotos st src).Pairwise rowLe :=
    List.sorted_insertionSort rowLe (sourceFilter st.catalog src)
  have h2 : (orderedPhotos st src).Pairwise newestFirstOk :=
    hsorted.imp rowLe_newestFirstOk
  have hsub : List.Sublist (get_photos st src L O) (orderedPhotos st src) :=
    (List.take_sublist _ _).trans (List.drop_sublist _ _)
  exact h2.sublist hsub

/-! ## C2: composition of an import run -/

/-- The entry has a supported (lower-cased) extension. -/
def entryExtOkB (e : ZipEntry) : Bool :=
  decide (strLower (pathSuffix e.name) ∈ SUPPORTED_EXTENSIONS)

/-- The entry lands in `skipped`: a non-directory with unsupported extension. -/
def entrySkippedB (e : ZipEntry) : Bool :=
  !endsWithSlash e.name && !entryExtOkB e

/-- The entry lands in `errors`: a non-directory, supported extension, but
`zf.read` raises (corrupt data). -/
def entryCorruptB (e : ZipEntry) : Bool :=
  !endsWithSlash e.name && entryExtOkB e && !e.content.isOk

/-- The entry is extracted and queued for `add_photo`. -/
def entryExtractedB (e : ZipEntry) : Bool :=
  !endsWithSlash e.name && entryExtOkB e && e.content.isOk

/-- The decompressed bytes of a readable entry. -/
def entryData (e : ZipEntry) : List Nat :=
  match e.content with
  | .ok d => d
  | .error _ => []

/-- The exception text of a corrupt entry. -/
def entryErr (e : ZipEntry) : String :=
  match e.content with
  | .ok _ => ""
  | .error m => m

/-- The sanitized filename still carries a supported extension, which is what
`add_photo` itself re-checks before inserting. -/
def sanitizeOkB (filename : String) : Bool :=
  decide (strLower (pathSuffix (sanitize_filename filename)) ∈ SUPPORTED_EXTENSIONS)

/-- The entry actually becomes a catalog row: extracted, and its sanitized
basename keeps a supported extension. -/
def entryAddedB (e : ZipEntry) : Bool :=
  entryExtractedB e && sanitizeOkB (pathName e.name)

/-- The items queued by the extraction loop. -/
lemma extractPhase_items (md5 : List Nat → String) (es : List ZipEntry) :
    (extractPhase md5 es).1 = (es.filter entryExtractedB).map
      (fun e => (pathName e.name, entryData e, md5 (entryData e))) := by
  induction es with
  | nil => rfl
  | cons e rest ih =>
    rw [extractPhase]
    by_cases hd : endsWithSlash e.name
    · simp [hd, List.filter_cons, entryExtractedB, ih]
    · by_cases hx : strLower (pathSuffix e.name) ∈ SUPPORTED_EXTENSIONS
      · cases hc : e.content with
        | ok d =>
          simp [hd, hx, hc, List.filter_cons, entryExtractedB, entryExtOkB, entryData,
            Except.isOk, Except.toBool, ih]
        | error m =>
          simp [hd, hx, hc, List.filter_cons, entryExtractedB, entryExtOkB, Except.isOk,
            Except.toBool, ih]
      · simp [hd, hx, List.filter_cons, entryExtractedB, entryExtOkB, ih]

/-- The names recorded as skipped by the extraction loop. -/
lemma extractPhase_skipped (md5 : List Nat → String) (es : List ZipEntry) :
    (extractPhase md5 es).2.1 = (es.filter entrySkippedB).map (fun e => e.name) := by
  induction es with
  | nil => rfl
  | cons e rest ih =>
    rw [extractPhase]
    by_cases hd : endsWithSlash e.name
    · simp [hd, List.filter_cons, entrySkippedB, ih]
    · by_cases hx : strLower (pathSuffix e.name) ∈ SUPPORTED_EXTENSIONS
      · cases hc : e.content with
        | ok d => simp [hd, hx, hc, List.filter_cons, entrySkippedB, entryExtOkB, ih]
        | error m => simp [hd, hx, hc, List.filter_cons, entrySkippedB, entryExtOkB, ih]
      · simp [hd, hx, List.filter_cons, entrySkippedB, entryExtOkB, ih]

/-- The error records produced by the extraction loop. -/
lemma extractPhase_errors (md5 : List Nat → String) (es : List ZipEntry) :
    (extractPhase md5 es).2.2 = (es.filter entryCorruptB).map
      (fun e => (e.name, entryErr e)) := by
  induction es with
  | nil => rfl
  | cons e rest ih =>
    rw [extractPhase]
    by_cases hd : endsWithSlash e.name
    · simp [hd, List.filter_cons, entryCorruptB, ih]
    · by_cases hx : strLower (pathSuffix e.name) ∈ SUPPORTED_EXTENSIONS
      · cases hc : e.content with
        | ok d =>
          simp [hd, hx, hc, List.filter_cons, entryCorruptB, entryExtOkB, Except.isOk,
            Except.toBool, ih]
        | error m =>
          simp [hd, hx, hc, List.filter_cons, entryCorruptB, entryExtOkB, Except.isOk,
            Except.toBool, entryErr, ih]
      · simp [hd, hx, List.filter_cons, entryCorruptB, entryExtOkB, ih]

/-- `add_photo` rejects exactly when the sanitized filename loses its
supported extension, and then leaves the state untouched. -/
lemma add_photo_fail (env : Env) (st : HubState) (pid : String) (data : List Nat)
    (fn src : String) (meta : Option String) (h : sanitizeOkB fn = false) :
    add_photo env st pid data fn src meta = (st, none) := by
  rw [add_photo, if_neg]
  simpa [sanitizeOkB] using h

/-- On success `add_photo` returns the fresh id. -/
lemma add_photo_succ_snd (env : Env) (st : HubState) (pid : String) (data : List Nat)
    (fn src : String) (meta : Option String) (h : sanitizeOkB fn = true) :
    (add_photo env st pid data fn src meta).2 = some pid := by
  rw [add_photo, if_pos]
  simpa [sanitizeOkB] using h

/-- The add loop counts exactly the items whose sanitized filename keeps a
supported extension. -/
lemma addLoop_length (env : Env) (ids : Nat → String) :
    ∀ (items : List (String × List Nat × String)) (k : Nat) (st : HubState),
      (addLoop env ids k items st).1.length = items.countP (fun it => sanitizeOkB it.1) := by
  intro items
  induction items with
  | nil => intro k st; rfl
  | cons it rest ih =>
    intro k st
    obtain ⟨fn, data, hsh⟩ := it
    rw [addLoop]
    by_cases hs : sanitizeOkB fn = true
    · have h2 := add_photo_succ_snd env st (ids k) data fn "imported" none hs
      simp only [List.countP_cons, hs]
      cases hadd : add_photo env st (ids k) data fn "imported" none with
      | mk st1 res =>
        rw [hadd] at h2
        simp only at h2
        subst h2
        simp [ih (k + 1) st1]
    · have hs' : sanitizeOkB fn = false := by simpa using hs
      rw [add_photo_fail env st (ids k) data fn "imported" none hs']
      simp [List.countP_cons, hs', ih (k + 1) st]

/-- C2 (amended composition count): for any archive, `import_zip` reports as
imported the entries that are non-directories with supported extensions,
extract cleanly, *and* keep a supported extension after filename
sanitization; as skipped the non-directory unsupported-extension entries; and
as errors exactly the corrupt supported-extension entries, in order.  With 3
added images, 1 unsupported entry and exactly 1 corrupt entry this yields
`imported = 3`, `skipped = 1`, and one error naming the corrupt file. -/
theorem c2_import_zip_mixed (md5 : List Nat → String) (env : Env) (ids : Nat → String)
    (k : Nat) (st : HubState) (es : List ZipEntry) (ce : ZipEntry)
    (h3 : es.countP entryAddedB = 3)
    (h1 : es.countP entrySkippedB = 1)
    (hc : es.filter entryCorruptB = [ce]) :
    ∃ s st' k', import_zip md5 env ids k (.archive es) st = .ok (s, st', k') ∧
      s.imported = 3 ∧ s.skipped = 1 ∧ s.errors = [(ce.name, entryErr ce)] := by
  refine ⟨_, _, _, rfl, ?_, ?_, ?_⟩
  · show (addLoop env ids k (extractPhase md5 es).1 st).1.length = 3
    rw [addLoop_length, extractPhase_items, List.countP_map]
    have hcong : List.countP ((fun it => sanitizeOkB it.1) ∘
        (fun e => (pathName e.name, entryData e, md5 (entryData e))))
        (es.filter entryExtractedB)
        = List.countP (fun e => sanitizeOkB (pathName e.name)) (es.filter entryExtractedB) := by
      apply List.countP_congr
      intro e _
      simp [Function.comp]
    rw [hcong, List.countP_filter]
    rw [← h3]
    apply List.countP_congr
    intro e _
    simp [entryAddedB, Bool.and_comm]
  · show (extractPhase md5 es).2.1.length = 1
    rw [extractPhase_skipped, List.length_map, ← List.countP_eq_length_filter]
    exact h1
  · show (extractPhase md5 es).2.2 = [(ce.name, entryErr ce)]
    rw [extractPhase_errors, hc]
    rfl

/-- C2 witness: a five-entry archive — three clean images, one `.txt`, one
corrupt `.jpg` — imports 3, skips 1, errors 1. -/
theorem c2_witness :
    (([⟨"a.jpg", .ok [1]⟩, ⟨"b.png", .ok [2]⟩, ⟨"photos/e.jpeg", .ok [3]⟩,
       ⟨"c.txt", .ok [4]⟩, ⟨"d.jpg", .error "Bad CRC-32 for file d.jpg"⟩] :
        List ZipEntry).countP entryAddedB = 3) ∧
    (([⟨"a.jpg", .ok [1]⟩, ⟨"b.png", .ok [2]⟩, ⟨"photos/e.jpeg", .ok [3]⟩,
       ⟨"c.txt", .ok [4]⟩, ⟨"d.jpg", .error "Bad CRC-32 for file d.jpg"⟩] :
        List ZipEntry).countP entrySkippedB = 1) ∧
    ∃ s st' k', import_zip md5Fix envFix idsFix 0
      (.archive [⟨"a.jpg", .ok [1]⟩, ⟨"b.png", .ok [2]⟩, ⟨"photos/e.jpeg", .ok [3]⟩,
        ⟨"c.txt", .ok [4]⟩, ⟨"d.jpg", .error "Bad CRC-32 for file d.jpg"⟩])
      emptyState = .ok (s, st', k') ∧
      s.imported = 3 ∧ s.skipped = 1 ∧
      s.errors = [("d.jpg", entryErr ⟨"d.jpg", .error "Bad CRC-32 for file d.jpg"⟩)] :=
  ⟨by decide, by decide,
    c2_import_zip_mixed md5Fix envFix idsFix 0 emptyState
      [⟨"a.jpg", .ok [1]⟩, ⟨"b.png", .ok [2]⟩, ⟨"photos/e.jpeg", .ok [3]⟩,
        ⟨"c.txt", .ok [4]⟩, ⟨"d.jpg", .error "Bad CRC-32 for file d.jpg"⟩]
      ⟨"d.jpg", .error "Bad CRC-32 for file d.jpg"⟩
      (by decide) (by decide) (by decide)⟩

/-- C2 counterexample: an archive whose third "decodable image with supported
extension" is named `??.jpg` — sanitization strips the `?`s, leaving `.jpg`
whose pathlib suffix is empty, so `add_photo` silently rejects it: the run
reports `imported = 2`, not 3 (with `skipped = 1` and the corrupt entry the
only error), falsifying the claim as stated. -/
theorem c2_sanitize_drop :
    (import_zip md5Fix envFix idsFix 0
      (.archive [⟨"a.jpg", .ok [1]⟩, ⟨"b.jpg", .ok [2]⟩, ⟨"??.jpg", .ok [3]⟩,
        ⟨"c.txt", .ok [4]⟩, ⟨"d.jpg", .error "Bad CRC-32 for file d.jpg"⟩])
      emptyState).toOption.map (fun p => (p.1.imported, p.1.skipped, p.1.errors)) =
      some (2, 1, [("d.jpg", "Bad CRC-32 for file d.jpg")]) := by decide

/-! ## C6: rescanning an unchanged folder adds nothing -/

/-- `add_photo` only ever appends to the catalog. -/
lemma add_photo_catalog_mono (env : Env) (st : HubState) (pid : String) (data : List Nat)
    (fn src : String) (meta : Option String) :
    ∃ Δ, (add_photo env st pid data fn src meta).1.catalog = st.catalog ++ Δ := by
  by_cases hs : sanitizeOkB fn = true
  · rw [add_photo, if_pos (by simpa [sanitizeOkB] using hs)]
    exact ⟨_, rfl⟩
  · rw [add_photo_fail env st pid data fn src meta (by simpa using hs)]
    exact ⟨[], (List.append_nil _).symm⟩

/-- On success, `add_photo` appends one row carrying the given filename and
source id. -/
lemma add_photo_succ_catalog (env : Env) (st : HubState) (pid : String) (data : List Nat)
    (fn src : String) (meta : Option String) (h : sanitizeOkB fn = true) :
    ∃ row : PhotoRow, (add_photo env st pid data fn src meta).1.catalog = st.catalog ++ [row] ∧
      row.filename = fn ∧ row.source_id = src := by
  rw [add_photo, if_pos (by simpa [sanitizeOkB] using h)]
  exact ⟨_, rfl, rfl, rfl⟩

/-- Scan step: a non-regular-file entry is skipped. -/
lemma scanLoop_cons_notFile (env : Env) (ids : Nat → String) (folderPath : String)
    (k : Nat) (e : DirEntry) (rest : List DirEntry) (st : HubState)
    (hf : e.isFile = false) :
    scanLoop env ids folderPath k (e :: rest) st = scanLoop env ids folderPath k rest st := by
  rw [scanLoop, if_neg (by simp [hf])]

/-- Scan step: an entry with unsupported suffix is skipped. -/
lemma scanLoop_cons_extNo (env : Env) (ids : Nat → String) (folderPath : String)
    (k : Nat) (e : DirEntry) (rest : List DirEntry) (st : HubState)
    (hf : e.isFile = true)
    (hx : strLower (pathSuffix (folderPath ++ "/" ++ e.name)) ∉ SUPPORTED_EXTENSIONS) :
    scanLoop env ids folderPath k (e :: rest) st = scanLoop env ids folderPath k rest st := by
  rw [scanLoop, if_pos hf, if_neg hx]

/-- Scan step: an entry already catalogued (by basename, source `'local'`) is
skipped. -/
lemma scanLoop_cons_found (env : Env) (ids : Nat → String) (folderPath : String)
    (k : Nat) (e : DirEntry) (rest : List DirEntry) (st : HubState)
    (hf : e.isFile = true)
    (hx : strLower (pathSuffix (folderPath ++ "/" ++ e.name)) ∈ SUPPORTED_EXTENSIONS)
    (hex : (find_photo_by_path st (folderPath ++ "/" ++ e.name)).isSome = true) :
    scanLoop env ids folderPath k (e :: rest) st = scanLoop env ids folderPath k rest st := by
  rw [scanLoop, if_pos hf, if_pos hx, if_pos hex]

/-- Scan step: a new entry goes through `add_photo`, the loop continues on the
post-add state, and the counter grows only when the add succeeded. -/
lemma scanLoop_cons_add (env : Env) (ids : Nat → String) (folderPath : String)
    (k : Nat) (e : DirEntry) (rest : List DirEntry) (st st1 : HubState)
    (res : Option String)
    (hf : e.isFile = true)
    (hx : strLower (pathSuffix (folderPath ++ "/" ++ e.name)) ∈ SUPPORTED_EXTENSIONS)
    (hex : (find_photo_by_path st (folderPath ++ "/" ++ e.name)).isSome = false)
    (hadd : add_photo env st (ids k) e.content (pathName (folderPath ++ "/" ++ e.name))
      "local" none = (st1, res)) :
    scanLoop env ids folderPath k (e :: rest) st =
      (match res with
       | some _ =>
         ((scanLoop env ids folderPath (k + 1) rest st1).1,
          (scanLoop env ids folderPath (k + 1) rest st1).2.1,
          (scanLoop env ids folderPath (k + 1) rest st1).2.2 + 1)
       | none => scanLoop env ids folderPath (k + 1) rest st1) := by
  rw [scanLoop, if_pos hf, if_pos hx, if_neg (by simp [hex])]
  simp only [hadd]
  rcases hrec : scanLoop env ids folderPath (k + 1) rest st1 with ⟨st2, k2, n⟩
  cases res with
  | some p => rfl
  | none => rfl

/-- The scan loop only ever appends to the catalog. -/
lemma scanLoop_catalog_mono (env : Env) (ids : Nat → String) (folderPath : String) :
    ∀ (entries : List DirEntry) (k : Nat) (st : HubState),
      ∃ Δ, (scanLoop env ids folderPath k entries st).1.catalog = st.catalog ++ Δ := by
  intro entries
  induction entries with
  | nil => intro k st; exact ⟨[], by rw [scanLoop, List.append_nil]⟩
  | cons e rest ih =>
    intro k st
    by_cases hf : e.isFile = true
    · by_cases hx : strLower (pathSuffix (folderPath ++ "/" ++ e.name)) ∈ SUPPORTED_EXTENSIONS
      · by_cases hex : (find_photo_by_path st (folderPath ++ "/" ++ e.name)).isSome = true
        · rw [scanLoop_cons_found env ids folderPath k e rest st hf hx hex]
          exact ih k st
        · rcases hadd : add_photo env st (ids k) e.content
            (pathName (folderPath ++ "/" ++ e.name)) "local" none with ⟨st1, res⟩
          rw [scanLoop_cons_add env ids folderPath k e rest st st1 res hf hx
            (by simpa using hex) hadd]
          obtain ⟨Δ0, hΔ0⟩ := add_photo_catalog_mono env st (ids k) e.content
            (pathName (folderPath ++ "/" ++ e.name)) "local" none
          rw [hadd] at hΔ0
          obtain ⟨Δ2, hΔ2⟩ := ih (k + 1) st1
          have hgoal : (scanLoop env ids folderPath (k + 1) rest st1).1.catalog =
              st.catalog ++ (Δ0 ++ Δ2) := by
            rw [hΔ2]
            have : st1.catalog = st.catalog ++ Δ0 := hΔ0
            rw [this, List.append_assoc]
          cases res with
          | some p => exact ⟨Δ0 ++ Δ2, hgoal⟩
          | none => exact ⟨Δ0 ++ Δ2, hgoal⟩
      · rw [scanLoop_cons_extNo env ids folderPath k e rest st hf hx]
        exact ih k st
    · rw [scanLoop_cons_notFile env ids folderPath k e rest st (by simpa using hf)]
      exact ih k st

/-- After one scan, every regular file with a supported suffix whose
sanitized basename keeps a supported extension is catalogued under the
`'local'` source with its basename as `filename`. -/
lemma scanLoop_covers (env : Env) (ids : Nat → String) (folderPath : String) :
    ∀ (entries : List DirEntry) (k : Nat) (st : HubState) (e : DirEntry),
      e ∈ entries → e.isFile = true →
      strLower (pathSuffix (folderPath ++ "/" ++ e.name)) ∈ SUPPORTED_EXTENSIONS →
      sanitizeOkB (pathName (folderPath ++ "/" ++ e.name)) = true →
      ∃ r ∈ (scanLoop env ids folderPath k entries st).1.catalog,
        r.filename = pathName (folderPath ++ "/" ++ e.name) ∧ r.source_id = "local" := by
  intro entries
  induction entries with
  | nil => intro k st e he; exact absurd he (List.not_mem_nil e)
  | cons e0 rest ih =>
    intro k st e he hfile hx hsan
    rcases List.mem_cons.mp he with rfl | hrest
    · by_cases hex : (find_photo_by_path st (folderPath ++ "/" ++ e.name)).isSome = true
      · rw [scanLoop_cons_found env ids folderPath k e rest st hfile hx hex]
        rw [find_photo_by_path, List.find?_isSome] at hex
        obtain ⟨r, hr, hpred⟩ := hex
        obtain ⟨Δ, hΔ⟩ := scanLoop_catalog_mono env ids folderPath rest k st
        refine ⟨r, by rw [hΔ]; exact List.mem_append_left Δ hr, ?_⟩
        simpa [Bool.and_eq_true, decide_eq_true_eq] using hpred
      · rcases hadd : add_photo env st (ids k) e.content
          (pathName (folderPath ++ "/" ++ e.name)) "local" none with ⟨st1, res⟩
        rw [scanLoop_cons_add env ids folderPath k e rest st st1 res hfile hx
          (by simpa using hex) hadd]
        obtain ⟨row, hcat, hfn, hsrc⟩ := add_photo_succ_catalog env st (ids k) e.content
          (pathName (folderPath ++ "/" ++ e.name)) "local" none hsan
        rw [hadd] at hcat
        obtain ⟨Δ2, hΔ2⟩ := scanLoop_catalog_mono env ids folderPath rest (k + 1) st1
        have hmem : row ∈ (scanLoop env ids folderPath (k + 1) rest st1).1.catalog := by
          rw [hΔ2]
          have : st1.catalog = st.catalog ++ [row] := hcat
          rw [this]
          exact List.mem_append_left Δ2 (List.mem_append_right _ (List.mem_singleton.mpr rfl))
        cases res with
        | some p => exact ⟨row, hmem, hfn, hsrc⟩
        | none => exact ⟨row, hmem, hfn, hsrc⟩
    · by_cases hf0 : e0.isFile = true
      · by_cases hx0 : strLower (pathSuffix (folderPath ++ "/" ++ e0.name)) ∈ SUPPORTED_EXTENSIONS
        · by_cases hex0 : (find_photo_by_path st (folderPath ++ "/" ++ e0.name)).isSome = true
          · rw [scanLoop_cons_found env ids folderPath k e0 rest st hf0 hx0 hex0]
            exact ih k st e hrest hfile hx hsan
          · rcases hadd : add_photo env st (ids k) e0.content
              (pathName (folderPath ++ "/" ++ e0.name)) "local" none with ⟨st1, res⟩
            rw [scanLoop_cons_add env ids folderPath k e0 rest st st1 res hf0 hx0
              (by simpa using hex0) hadd]
            have hrec := ih (k + 1) st1 e hrest hfile hx hsan
            cases res with
            | some p => exact hrec
            | none => exact hrec
        · rw [scanLoop_cons_extNo env ids folderPath k e0 rest st hf0 hx0]
          exact ih k st e hrest hfile hx hsan
      · rw [scanLoop_cons_notFile env ids folderPath k e0 rest st (by simpa using hf0)]
        exact ih k st e hrest hfile hx hsan

/-- A scan over entries that are all either covered by the catalog or
rejected by sanitization changes nothing and adds zero. -/
lemma scanLoop_idem (env : Env) (ids : Nat → String) (folderPath : String) :
    ∀ (entries : List DirEntry) (k : Nat) (st : HubState),
      (∀ e ∈ entries, e.isFile = true →
        strLower (pathSuffix (folderPath ++ "/" ++ e.name)) ∈ SUPPORTED_EXTENSIONS →
        sanitizeOkB (pathName (folderPath ++ "/" ++ e.name)) = true →
        ∃ r ∈ st.catalog,
          r.filename = pathName (folderPath ++ "/" ++ e.name) ∧ r.source_id = "local") →
      (scanLoop env ids folderPath k entries st).1 = st ∧
      (scanLoop env ids folderPath k entries st).2.2 = 0 := by
  intro entries
  induction entries with
  | nil => intro k st _; rw [scanLoop]; exact ⟨rfl, rfl⟩
  | cons e rest ih =>
    intro k st hcov
    have hcov' : ∀ e' ∈ rest, e'.isFile = true →
        strLower (pathSuffix (folderPath ++ "/" ++ e'.name)) ∈ SUPPORTED_EXTENSIONS →
        sanitizeOkB (pathName (folderPath ++ "/" ++ e'.name)) = true →
        ∃ r ∈ st.catalog,
          r.filename = pathName (folderPath ++ "/" ++ e'.name) ∧ r.source_id = "local" :=
      fun e' he' => hcov e' (List.mem_cons_of_mem e he')
    by_cases hf : e.isFile = true
    · by_cases hx : strLower (pathSuffix (folderPath ++ "/" ++ e.name)) ∈ SUPPORTED_EXTENSIONS
      · by_cases hex : (find_photo_by_path st (folderPath ++ "/" ++ e.name)).isSome = true
        · rw [scanLoop_cons_found env ids folderPath k e rest st hf hx hex]
          exact ih k st hcov'
        · by_cases hsan : sanitizeOkB (pathName (folderPath ++ "/" ++ e.name)) = true
          · obtain ⟨r, hr, hfn, hsrc⟩ := hcov e (List.mem_cons_self e rest) hf hx hsan
            have : (find_photo_by_path st (folderPath ++ "/" ++ e.name)).isSome = true := by
              rw [find_photo_by_path, List.find?_isSome]
              exact ⟨r, hr, by simp [hfn, hsrc]⟩
            exact absurd this hex
          · have hsan' : sanitizeOkB (pathName (folderPath ++ "/" ++ e.name)) = false := by
              simpa using hsan
            rw [scanLoop_cons_add env ids folderPath k e rest st st none hf hx
              (by simpa using hex)
              (add_photo_fail env st (ids k) e.content
                (pathName (folderPath ++ "/" ++ e.name)) "local" none hsan')]
            exact ih (k + 1) st hcov'
      · rw [scanLoop_cons_extNo env ids folderPath k e rest st hf hx]
        exact ih k st hcov'
    · rw [scanLoop_cons_notFile env ids folderPath k e rest st (by simpa using hf)]
      exact ih k st hcov'

/-- C6: scanning the same unchanged folder a second time adds zero photos and
leaves the hub state (catalog and blob store) exactly as the first scan left
it, whatever fresh uuids the second run draws. -/
theorem c6_scan_local_folder_idempotent (env : Env) (ids1 ids2 : Nat → String)
    (k1 k2 : Nat) (st : HubState) (folder : Option (List DirEntry)) (folderPath : String) :
    (scan_local_folder env ids2 k2 folder folderPath
        (scan_local_folder env ids1 k1 folder folderPath st).1).1 =
      (scan_local_folder env ids1 k1 folder folderPath st).1 ∧
    (scan_local_folder env ids2 k2 folder folderPath
        (scan_local_folder env ids1 k1 folder folderPath st).1).2.2 = 0 := by
  cases folder with
  | none => exact ⟨rfl, rfl⟩
  | some entries =>
    have hcov : ∀ e ∈ entries, e.isFile = true →
        strLower (pathSuffix (folderPath ++ "/" ++ e.name)) ∈ SUPPORTED_EXTENSIONS →
        sanitizeOkB (pathName (folderPath ++ "/" ++ e.name)) = true →
        ∃ r ∈ (scanLoop env ids1 folderPath k1 entries st).1.catalog,
          r.filename = pathName (folderPath ++ "/" ++ e.name) ∧ r.source_id = "local" :=
      fun e he hf hx hs => scanLoop_covers env ids1 folderPath entries k1 st e he hf hx hs
    exact scanLoop_idem env ids2 folderPath entries k2
      (scanLoop env ids1 folderPath k1 entries st).1 hcov


/-! ## C5: thumbnail geometry -/

/-- PIL's rounded aspect value is clamped to at least 1. -/
lemma round_aspect_ge_one (v : ℚ) (key : ℤ → ℚ) : 1 ≤ round_aspect v key :=
  le_max_right _ 1

/-- For positive input the rounded value never exceeds the ceiling. -/
lemma round_aspect_le_ceil (v : ℚ) (key : ℤ → ℚ) (hv : 0 < v) :
    round_aspect v key ≤ ⌈v⌉ := by
  have hc1 : (1 : ℤ) ≤ ⌈v⌉ := by
    have := Int.ceil_pos.mpr hv
    omega
  rw [round_aspect]
  apply max_le _ hc1
  split_ifs
  · exact Int.floor_le_ceil v
  · exact le_refl _

/-- The rounded (and clamped) value is within 1 of the exact value. -/
lemma round_aspect_close (v : ℚ) (key : ℤ → ℚ) (hv : 0 < v) :
    |(round_aspect v key : ℚ) - v| ≤ 1 := by
  rw [round_aspect]
  set pick : ℤ := if key ⌊v⌋ ≤ key ⌈v⌉ then ⌊v⌋ else ⌈v⌉ with hpick
  have hb : v - 1 ≤ (pick : ℚ) ∧ (pick : ℚ) ≤ v + 1 := by
    rw [hpick]
    split_ifs
    · exact ⟨by linarith [Int.sub_one_lt_floor v], by linarith [Int.floor_le v]⟩
    · exact ⟨by linarith [Int.le_ceil v], by linarith [Int.ceil_lt_add_one v]⟩
  rcases le_or_lt 1 pick with hp | hp
  · rw [max_eq_left hp, abs_le]
    exact ⟨by linarith [hb.1], by linarith [hb.2]⟩
  · rw [max_eq_right (le_of_lt hp), abs_le]
    have hpc : (pick : ℚ) < 1 := by exact_mod_cast hp
    push_cast
    exact ⟨by linarith, by linarith [hb.1]⟩

/-- Core geometry of one resized side: scaling the short side `a` of an
`a × b` image (with `a ≤ b` and `b > 400`) to `400·a/b` and rounding yields a
value in `[1, 400]`, not exceeding `a`, and within one pixel of exact aspect
(cross-multiplied: off by at most `b`). -/
lemma fit_side (a b : Nat) (key : ℤ → ℚ) (ha : 1 ≤ a) (hbig : 400 < b) (hab : a ≤ b) :
    1 ≤ (round_aspect (400 * ((a : ℚ) / b)) key).toNat ∧
    (round_aspect (400 * ((a : ℚ) / b)) key).toNat ≤ 400 ∧
    (round_aspect (400 * ((a : ℚ) / b)) key).toNat ≤ a ∧
    |((round_aspect (400 * ((a : ℚ) / b)) key).toNat : ℚ) * b - 400 * a| ≤ b := by
  have hb0 : (0 : ℚ) < b := by
    have : (400 : ℚ) < b := by exact_mod_cast hbig
    linarith
  have ha0 : (0 : ℚ) < a := by exact_mod_cast ha
  set v : ℚ := 400 * ((a : ℚ) / b) with hv
  have hv0 : 0 < v := by
    rw [hv]
    positivity
  have hva : v < a := by
    rw [hv, mul_div_assoc']
    rw [div_lt_iff hb0]
    have h400b : (400 : ℚ) < b := by exact_mod_cast hbig
    nlinarith
  have hv400 : v ≤ 400 := by
    rw [hv]
    have hd1 : (a : ℚ) / b ≤ 1 := (div_le_one hb0).mpr (by exact_mod_cast hab)
    nlinarith
  set x : ℤ := round_aspect v key with hx
  have hx1 : (1 : ℤ) ≤ x := round_aspect_ge_one v key
  have hxc : x ≤ ⌈v⌉ := round_aspect_le_ceil v key hv0
  have hc400 : ⌈v⌉ ≤ (400 : ℤ) := Int.ceil_le.mpr (by push_cast; exact hv400)
  have hca : ⌈v⌉ ≤ (a : ℤ) := Int.ceil_le.mpr (by push_cast; exact le_of_lt hva)
  have hx400 : x ≤ 400 := hxc.trans hc400
  have hxa : x ≤ (a : ℤ) := hxc.trans hca
  refine ⟨by omega, by omega, by omega, ?_⟩
  have hclose : |(x : ℚ) - v| ≤ 1 := round_aspect_close v key hv0
  have hcast : ((x.toNat : ℚ)) = (x : ℚ) := by
    have := Int.toNat_of_nonneg (by omega : (0 : ℤ) ≤ x)
    exact_mod_cast congrArg (fun z : ℤ => (z : ℚ)) this
  rw [hcast]
  have hvb : v * b = 400 * a := by
    rw [hv, mul_assoc, div_mul_cancel₀ _ (ne_of_gt hb0)]
  have hsplit : (x : ℚ) * b - 400 * a = ((x : ℚ) - v) * b := by
    rw [sub_mul, hvb]
  rw [hsplit, abs_mul, abs_of_pos hb0]
  calc |(x : ℚ) - v| * b ≤ 1 * b := mul_le_mul_of_nonneg_right hclose (le_of_lt hb0)
    _ = b := one_mul (b : ℚ)

/-- Geometry of `thumbnailSize`: both output sides are within `[1, 400]`, no
side is upscaled beyond the original, and aspect ratio is preserved up to the
one-pixel rounding PIL performs (cross-multiplied bound). -/
lemma thumbnailSize_spec (w h : Nat) (hw : 1 ≤ w) (hh : 1 ≤ h) :
    (thumbnailSize w h).1 ≤ 400 ∧ (thumbnailSize w h).2 ≤ 400 ∧
    1 ≤ (thumbnailSize w h).1 ∧ 1 ≤ (thumbnailSize w h).2 ∧
    (thumbnailSize w h).1 ≤ w ∧ (thumbnailSize w h).2 ≤ h ∧
    |((thumbnailSize w h).1 : ℚ) * h - ((thumbnailSize w h).2 : ℚ) * w| ≤
      max (w : ℚ) (h : ℚ) := by
  rw [thumbnailSize]
  by_cases hfit : 400 ≥ w ∧ 400 ≥ h
  · rw [if_pos hfit]
    refine ⟨hfit.1, hfit.2, hw, hh, le_refl w, le_refl h, ?_⟩
    have : ((w : ℚ)) * h - ((h : ℚ)) * w = 0 := by ring
    rw [this, abs_zero]
    positivity
  · rw [if_neg hfit]
    have hw0 : (0 : ℚ) < w := by exact_mod_cast hw
    have hh0 : (0 : ℚ) < h := by exact_mod_cast hh
    by_cases hbr : (400 : ℚ) / 400 ≥ (w : ℚ) / (h : ℚ)
    · rw [if_pos hbr]
      have hdiv1 : (w : ℚ) / h ≤ 1 := by
        have h1 : (400 : ℚ) / 400 = 1 := by norm_num
        rw [h1] at hbr
        exact hbr
      have hwh : w ≤ h := by
        have := (div_le_one hh0).mp hdiv1
        exact_mod_cast this
      have hh400 : 400 < h := by
        rcases Nat.lt_or_ge 400 h with hgt | hle
        · exact hgt
        · exfalso
          exact hfit ⟨le_trans hwh hle, hle⟩
      obtain ⟨h1, h2, h3, h4⟩ := fit_side w h
        (fun n => |(w : ℚ) / h - (n : ℚ) / 400|) hw hh400 hwh
      exact ⟨h2, le_refl 400, h1, by norm_num, h3, le_of_lt hh400,
        le_trans (by simpa using h4) (le_max_right _ _)⟩
    · rw [if_neg hbr]
      have hdiv1 : 1 < (w : ℚ) / h := by
        have h1 : (400 : ℚ) / 400 = 1 := by norm_num
        rw [not_le, h1] at hbr
        exact hbr
      have hhw : h ≤ w := by
        have : (h : ℚ) < w := by
          have := (one_lt_div hh0).mp hdiv1
          exact this
        have := le_of_lt this
        exact_mod_cast this
      have hw400 : 400 < w := by
        rcases Nat.lt_or_ge 400 w with hgt | hle
        · exact hgt
        · exfalso
          exact hfit ⟨hle, le_trans hhw hle⟩
      have hrw : (400 : ℚ) / ((w : ℚ) / h) = 400 * ((h : ℚ) / w) := by
        rw [div_div_eq_mul_div, mul_div_assoc]
      rw [hrw]
      obtain ⟨h1, h2, h3, h4⟩ := fit_side h w
        (fun n => if n = 0 then 0 else |(w : ℚ) / h - (400 : ℚ) / (n : ℚ)|) hh hw400 hhw
      refine ⟨le_refl 400, h2, by norm_num, h1, le_of_lt hw400, h3, ?_⟩
      rw [abs_sub_comm]
      push_cast
      calc |((round_aspect (400 * ((h : ℚ) / w))
            (fun n => if n = 0 then 0 else |(w : ℚ) / h - (400 : ℚ) / (n : ℚ)|)).toNat : ℚ) * w
            - 400 * h| ≤ (w : ℚ) := h4
        _ ≤ max (w : ℚ) h := le_max_left _ _

/-- C5: for every original that decodes, the generated thumbnail is a JPEG at
quality 85 whose sides are the PIL `thumbnail` fit: both at most 400 (so the
longer dimension is ≤ 400), at least 1, never upscaled beyond the original,
and aspect-preserving up to PIL's one-pixel rounding. -/
theorem c5_generate_thumbnail_spec (env : Env) (bytes : List Nat) (w h : Nat)
    (hdec : env.decode bytes = some (w, h)) (hw : 1 ≤ w) (hh : 1 ≤ h) :
    ∃ t : ThumbData, generateThumb env (.raw bytes) = some t ∧
      t.format = "JPEG" ∧ t.quality = 85 ∧
      t.width = (thumbnailSize w h).1 ∧ t.height = (thumbnailSize w h).2 ∧
      t.width ≤ 400 ∧ t.height ≤ 400 ∧ 1 ≤ t.width ∧ 1 ≤ t.height ∧
      t.width ≤ w ∧ t.height ≤ h ∧
      |(t.width : ℚ) * h - (t.height : ℚ) * w| ≤ max (w : ℚ) (h : ℚ) := by
  obtain ⟨g1, g2, g3, g4, g5, g6, g7⟩ := thumbnailSize_spec w h hw hh
  refine ⟨⟨(thumbnailSize w h).1, (thumbnailSize w h).2, "JPEG", 85⟩, ?_,
    rfl, rfl, rfl, rfl, g1, g2, g3, g4, g5, g6, g7⟩
  rw [generateThumb, hdec]

/-- C5 witness: a decoder reporting an 800×200 original. -/
theorem c5_witness :
    ((⟨fun _ => some (800, 200), fun _ => none, "t"⟩ : Env).decode [0] = some (800, 200)) ∧
    1 ≤ 800 ∧ 1 ≤ 200 ∧
    ∃ t : ThumbData,
      generateThumb (⟨fun _ => some (800, 200), fun _ => none, "t"⟩ : Env) (.raw [0]) = some t ∧
      t.format = "JPEG" ∧ t.quality = 85 ∧
      t.width = (thumbnailSize 800 200).1 ∧ t.height = (thumbnailSize 800 200).2 ∧
      t.width ≤ 400 ∧ t.height ≤ 400 ∧ 1 ≤ t.width ∧ 1 ≤ t.height ∧
      t.width ≤ 800 ∧ t.height ≤ 200 ∧
      |(t.width : ℚ) * 200 - (t.height : ℚ) * 800| ≤ max (800 : ℚ) (200 : ℚ) :=
  ⟨rfl, by decide, by decide, by
    have := c5_generate_thumbnail_spec
      (⟨fun _ => some (800, 200), fun _ => none, "t"⟩ : Env) [0] 800 200 rfl
      (by decide) (by decide)
    simpa using this⟩

/-! ## C10: no content-based deduplication in import_zip -/

/-- The item the extraction loop queues for a readable entry. -/
def itemOf (md5 : List Nat → String) (e : ZipEntry) : String × List Nat × String :=
  (pathName e.name, entryData e, md5 (entryData e))

/-- The resolved blob path `add_photo` writes for a fresh id and filename. -/
def blobKey (pid fn : String) : List String :=
  resolveSegs photosDir (splitPath (relativePathOf pid "imported" (sanitize_filename fn)))

/-- The catalog row `add_photo` inserts for an imported upload. -/
def importRow (env : Env) (pid fn : String) (data : List Nat) : PhotoRow :=
  { id := pid, source_id := "imported", filename := fn,
    local_path := some (relativePathOf pid "imported" (sanitize_filename fn)),
    width := (env.decode data).map Prod.fst, height := (env.decode data).map Prod.snd,
    taken_at := env.exifTakenAt data, created_at := env.now,
    metadata := none, synced_at := some env.now }

/-- The rows an all-successful add loop appends, in order, with the fresh ids
`ids k, ids (k+1), …`. -/
def importRowsOf (env : Env) (ids : Nat → String) (k : Nat)
    (items : List (String × List Nat × String)) : List PhotoRow :=
  (items.enumFrom k).map (fun p => importRow env (ids p.1) p.2.1 p.2.2.1)

/-- Explicit shape of a successful `add_photo` into the `imported` source. -/
lemma add_photo_succ_eq (env : Env) (st : HubState) (pid : String) (data : List Nat)
    (fn : String) (h : sanitizeOkB fn = true) :
    add_photo env st pid data fn "imported" none =
      (⟨st.catalog ++ [importRow env pid fn data],
        (blobKey pid fn, .raw data) :: st.files.filter (fun kv => ¬ kv.1 = blobKey pid fn)⟩,
       some pid) := by
  rw [add_photo, if_pos (by simpa [sanitizeOkB] using h)]
  rfl

/-- Writing one path keeps every present path present. -/
lemma fileExists_writeFile_mono (st : HubState) (q : List String) (d : FileData)
    (p : List String) (h : fileExists st p = true) :
    fileExists (writeFile st q d) p = true := by
  by_cases hpq : q = p
  · subst hpq
    simp [fileExists, writeFile, List.find?_cons]
  · simp only [fileExists, writeFile, List.find?_isSome] at h ⊢
    obtain ⟨kv, hkv, hp⟩ := h
    have hp' : kv.1 = p := by simpa using hp
    refine ⟨kv, List.mem_cons_of_mem _ (List.mem_filter.mpr ⟨hkv, ?_⟩), hp⟩
    simp only [hp', decide_eq_true_eq]
    exact fun hh => hpq hh.symm

/-- `add_photo` keeps every present path present. -/
lemma add_photo_files_mono (env : Env) (st : HubState) (pid : String) (data : List Nat)
    (fn src : String) (meta : Option String) (p : List String)
    (h : fileExists st p = true) :
    fileExists (add_photo env st pid data fn src meta).1 p = true := by
  by_cases hs : sanitizeOkB fn = true
  · rw [add_photo, if_pos (by simpa [sanitizeOkB] using hs)]
    exact fileExists_writeFile_mono st _ _ p h
  · rw [add_photo_fail env st pid data fn src meta (by simpa using hs)]
    exact h

/-- The add loop keeps every present path present. -/
lemma addLoop_files_mono (env : Env) (ids : Nat → String) :
    ∀ (items : List (String × List Nat × String)) (k : Nat) (st : HubState) (p : List String),
      fileExists st p = true → fileExists (addLoop env ids k items st).2.1 p = true := by
  intro items
  induction items with
  | nil => intro k st p h; exact h
  | cons it rest ih =>
    intro k st p h
    obtain ⟨fn, data, hsh⟩ := it
    rw [addLoop]
    have h1 := add_photo_files_mono env st (ids k) data fn "imported" none p h
    rcases hadd : add_photo env st (ids k) data fn "imported" none with ⟨st1, res⟩
    rw [hadd] at h1
    simp only [hadd]
    have h2 := ih (k + 1) st1 p h1
    rcases hrec : addLoop env ids (k + 1) rest st1 with ⟨added, st2, k2⟩
    rw [hrec] at h2
    cases res with
    | some q => exact h2
    | none => exact h2

/-- Full characterization of the add loop when every item survives
sanitization: it returns exactly the window of fresh ids, appends exactly the
expected rows, advances the id counter by the item count, and leaves every
entry's blob on disk. -/
lemma addLoop_all_ok (env : Env) (ids : Nat → String) :
    ∀ (items : List (String × List Nat × String)) (k : Nat) (st : HubState),
      (∀ it ∈ items, sanitizeOkB it.1 = true) →
      (addLoop env ids k items st).1 = (items.enumFrom k).map (fun p => ids p.1) ∧
      (addLoop env ids k items st).2.1.catalog = st.catalog ++ importRowsOf env ids k items ∧
      (addLoop env ids k items st).2.2 = k + items.length ∧
      (∀ p ∈ items.enumFrom k,
        fileExists (addLoop env ids k items st).2.1 (blobKey (ids p.1) p.2.1) = true) := by
  intro items
  induction items with
  | nil =>
    intro k st _
    refine ⟨rfl, by rw [addLoop]; simp [importRowsOf], rfl, ?_⟩
    intro p hp
    exact absurd hp (List.not_mem_nil p)
  | cons it rest ih =>
    intro k st hok
    obtain ⟨fn, data, hsh⟩ := it
    have hfn : sanitizeOkB fn = true := hok (fn, data, hsh) (List.mem_cons_self _ _)
    have hrest : ∀ it ∈ rest, sanitizeOkB it.1 = true :=
      fun it hit => hok it (List.mem_cons_of_mem _ hit)
    rw [addLoop, add_photo_succ_eq env st (ids k) data fn hfn]
    set st1 : HubState := ⟨st.catalog ++ [importRow env (ids k) fn data],
      (blobKey (ids k) fn, .raw data) ::
        st.files.filter (fun kv => ¬ kv.1 = blobKey (ids k) fn)⟩ with hst1
    obtain ⟨ih1, ih2, ih3, ih4⟩ := ih (k + 1) st1 hrest
    rcases hrec : addLoop env ids (k + 1) rest st1 with ⟨added, st2, k2⟩
    rw [hrec] at ih1 ih2 ih3 ih4
    have ih1' : added = List.map (fun p => ids p.1) (List.enumFrom (k + 1) rest) := ih1
    have ih2' : st2.catalog = st1.catalog ++ importRowsOf env ids (k + 1) rest := ih2
    have ih3' : k2 = k + 1 + rest.length := ih3
    have ih4' : ∀ p ∈ List.enumFrom (k + 1) rest,
        fileExists st2 (blobKey (ids p.1) p.2.1) = true := ih4
    simp only [hrec]
    refine ⟨?_, ?_, ?_, ?_⟩
    · show ids k :: added = List.map (fun p => ids p.1) (List.enumFrom k ((fn, data, hsh) :: rest))
      simp only [List.enumFrom_cons, List.map_cons]
      rw [ih1']
    · show st2.catalog = st.catalog ++ importRowsOf env ids k ((fn, data, hsh) :: rest)
      rw [ih2']
      have hcat1 : st1.catalog = st.catalog ++ [importRow env (ids k) fn data] := by rw [hst1]
      rw [hcat1]
      simp only [importRowsOf, List.enumFrom_cons, List.map_cons]
      rw [List.append_assoc, List.singleton_append]
    · show k2 = k + ((fn, data, hsh) :: rest).length
      rw [ih3', List.length_cons]
      omega
    · intro p hp
      rcases List.mem_cons.mp hp with rfl | hp'
      · show fileExists st2 (blobKey (ids k) fn) = true
        have hbase : fileExists st1 (blobKey (ids k) fn) = true := by
          rw [hst1]
          simp [fileExists, List.find?_cons]
        have hmono := addLoop_files_mono env ids rest (k + 1) st1 _ hbase
        rw [hrec] at hmono
        exact hmono
      · exact ih4' p hp'

/-- Extraction of an archive whose entries are all importable: every entry is
queued, nothing is skipped, nothing errors. -/
lemma extractPhase_all_ok (md5 : List Nat → String) (es : List ZipEntry)
    (hall : ∀ e ∈ es, entryAddedB e = true) :
    extractPhase md5 es = (es.map (itemOf md5), [], []) := by
  induction es with
  | nil => rfl
  | cons e rest ih =>
    have he := hall e (List.mem_cons_self _ _)
    simp only [entryAddedB, entryExtractedB, Bool.and_eq_true, Bool.not_eq_true'] at he
    obtain ⟨⟨⟨hnd, hext⟩, hok⟩, hsan⟩ := he
    have hrest := ih (fun e' he' => hall e' (List.mem_cons_of_mem _ he'))
    rw [extractPhase, hrest]
    simp only [hnd, Bool.false_eq_true, if_false]
    rw [if_pos (by simpa [entryExtOkB] using hext)]
    cases hc : e.content with
    | ok d => simp [List.map_cons, itemOf, entryData, hc]
    | error m => rw [hc] at hok; simp [Except.isOk, Except.toBool] at hok

/-- `import_zip` on a well-formed archive, written with explicit projections. -/
lemma import_zip_archive_eq (md5 : List Nat → String) (env : Env) (ids : Nat → String)
    (k : Nat) (st : HubState) (es : List ZipEntry) :
    import_zip md5 env ids k (.archive es) st =
      .ok ({ imported := (addLoop env ids k (extractPhase md5 es).1 st).1.length,
             skipped := (extractPhase md5 es).2.1.length,
             errors := (extractPhase md5 es).2.2,
             photo_ids := (addLoop env ids k (extractPhase md5 es).1 st).1.take 10 },
           (addLoop env ids k (extractPhase md5 es).1 st).2.1,
           (addLoop env ids k (extractPhase md5 es).1 st).2.2) := rfl

/-- The add loop ignores the md5 hash carried in each item: running it over
the same entries hashed by two different digest functions is identical. -/
lemma addLoop_hash_irrel (env : Env) (ids : Nat → String) (m1 m2 : List Nat → String) :
    ∀ (l : List ZipEntry) (k : Nat) (st : HubState),
      addLoop env ids k (l.map (itemOf m1)) st = addLoop env ids k (l.map (itemOf m2)) st := by
  intro l
  induction l with
  | nil => intro k st; rfl
  | cons e rest ih =>
    intro k st
    simp only [List.map_cons, addLoop, itemOf]
    rcases hadd : add_photo env st (ids k) (entryData e) (pathName e.name)
      "imported" none with ⟨st1, res⟩
    simp only [hadd]
    rw [ih (k + 1) st1]

/-- C10 part 1 in lemma form: the import result never depends on the digest
oracle — the hash is computed and then dropped, never compared. -/
lemma import_zip_md5_irrel (env : Env) (ids : Nat → String) (m1 m2 : List Nat → String)
    (k : Nat) (inp : ZipInput) (st : HubState) :
    import_zip m1 env ids k inp st = import_zip m2 env ids k inp st := by
  cases inp with
  | invalid n => rfl
  | archive es =>
    rw [import_zip_archive_eq, import_zip_archive_eq]
    have hadd : addLoop env ids k (extractPhase m1 es).1 st
        = addLoop env ids k (extractPhase m2 es).1 st := by
      rw [extractPhase_items m1 es, extractPhase_items m2 es]
      have h1 : (es.filter entryExtractedB).map
          (fun e => (pathName e.name, entryData e, m1 (entryData e)))
          = (es.filter entryExtractedB).map (itemOf m1) := rfl
      have h2 : (es.filter entryExtractedB).map
          (fun e => (pathName e.name, entryData e, m2 (entryData e)))
          = (es.filter entryExtractedB).map (itemOf m2) := rfl
      rw [h1, h2]
      exact addLoop_hash_irrel env ids m1 m2 (es.filter entryExtractedB) k st
    rw [hadd, extractPhase_skipped m1, extractPhase_skipped m2,
      extractPhase_errors m1, extractPhase_errors m2]

/-- One import of an archive whose entries are all importable: every entry is
admitted (no comparison against existing photos happens), the summary counts
them all, the catalog grows by exactly the expected rows carrying the fresh
ids, every entry's blob is written, and no existing file is removed. -/
lemma import_zip_all_ok (md5 : List Nat → String) (env : Env) (ids : Nat → String)
    (k : Nat) (st : HubState) (es : List ZipEntry)
    (hall : ∀ e ∈ es, entryAddedB e = true) :
    ∃ s st', import_zip md5 env ids k (.archive es) st = .ok (s, st', k + es.length) ∧
      s.imported = es.length ∧ s.skipped = 0 ∧ s.errors = [] ∧
      st'.catalog = st.catalog ++ importRowsOf env ids k (es.map (itemOf md5)) ∧
      (∀ p ∈ (es.map (itemOf md5)).enumFrom k,
        fileExists st' (blobKey (ids p.1) p.2.1) = true) ∧
      (∀ q, fileExists st q = true → fileExists st' q = true) := by
  have hitems : ∀ it ∈ es.map (itemOf md5), sanitizeOkB it.1 = true := by
    intro it hit
    obtain ⟨e, he, rfl⟩ := List.mem_map.mp hit
    have := hall e he
    simp only [entryAddedB, Bool.and_eq_true] at this
    exact this.2
  obtain ⟨ha1, ha2, ha3, ha4⟩ := addLoop_all_ok env ids (es.map (itemOf md5)) k st hitems
  have h3 : (addLoop env ids k (es.map (itemOf md5)) st).2.2 = k + es.length := by
    rw [ha3, List.length_map]
  refine ⟨{ imported := (addLoop env ids k (es.map (itemOf md5)) st).1.length
            skipped := 0
            errors := []
            photo_ids := (addLoop env ids k (es.map (itemOf md5)) st).1.take 10 },
    (addLoop env ids k (es.map (itemOf md5)) st).2.1, ?_, ?_, rfl, rfl, ha2, ha4, ?_⟩
  · rw [import_zip_archive_eq, extractPhase_all_ok md5 es hall]
    show Except.ok (({ imported := (addLoop env ids k (es.map (itemOf md5)) st).1.length
                       skipped := ([] : List String).length
                       errors := ([] : List (String × String))
                       photo_ids := (addLoop env ids k (es.map (itemOf md5)) st).1.take 10 } :
                      ImportSummary),
      (addLoop env ids k (es.map (itemOf md5)) st).2.1,
      (addLoop env ids k (es.map (itemOf md5)) st).2.2) = _
    rw [h3]
    rfl
  · show (addLoop env ids k (es.map (itemOf md5)) st).1.length = es.length
    rw [ha1, List.length_map, List.enumFrom_length, List.length_map]
  · intro q hq
    exact addLoop_files_mono env ids (es.map (itemOf md5)) k st q hq

/-- Distinct 8-character id prefixes give distinct stored relative paths
(the id prefix sits between two fixed delimiters, so append cancellation
applies). -/
lemma relativePathOf_take8_inj (p1 p2 src safe : String) (h : take8 p1 ≠ take8 p2) :
    relativePathOf p1 src safe ≠ relativePathOf p2 src safe := by
  intro he
  apply h
  have hd := congrArg String.data he
  simp only [relativePathOf, String.data_append, List.append_assoc,
    List.append_cancel_left_eq] at hd
  exact String.toList_inj.mp (List.append_cancel_right hd)

/-- Zipping the row batches of two imports of the same items pairs each entry
with itself under the two different fresh ids. -/
lemma importRows_zip_spec (env : Env) (ids : Nat → String) :
    ∀ (items : List (String × List Nat × String)) (k1 k2 : Nat) (pr : PhotoRow × PhotoRow),
      pr ∈ (importRowsOf env ids k1 items).zip (importRowsOf env ids k2 items) →
      ∃ n1 n2 fn data, pr.1 = importRow env (ids n1) fn data ∧
        pr.2 = importRow env (ids n2) fn data := by
  intro items
  induction items with
  | nil => intro k1 k2 pr hpr; simp [importRowsOf] at hpr
  | cons it rest ih =>
    intro k1 k2 pr hpr
    obtain ⟨fn, data, hsh⟩ := it
    simp only [importRowsOf, List.enumFrom_cons, List.map_cons, List.zip_cons_cons] at hpr
    rcases List.mem_cons.mp hpr with rfl | hpr'
    · exact ⟨k1, k2, fn, data, rfl, rfl⟩
    · exact ih (k1 + 1) (k2 + 1) pr hpr'

/-- C10 (amended): `import_zip` deduplicates nothing.  (1) The result never
depends on the md5 digest oracle — the hash is computed per entry and then
dropped, never compared against existing photos.  (2) For an archive whose
entries are all importable (non-directory, supported extension, readable, and
extension surviving sanitization), importing it twice admits every entry both
times: each run reports `imported = |es|`, appends a fresh batch of rows
(carrying that run's fresh uuids) to the catalog, and writes each entry's
blob; the paired rows of the two runs have distinct stored paths whenever
their uuids differ in the 8-character prefix used in the blob filename. -/
theorem c10_import_zip_no_dedup (m1 m2 md5 : List Nat → String) (env : Env)
    (ids : Nat → String) (k : Nat) (st : HubState) (es : List ZipEntry)
    (hall : ∀ e ∈ es, entryAddedB e = true) :
    (∀ inp st0, import_zip m1 env ids k inp st0 = import_zip m2 env ids k inp st0) ∧
    ∃ s1 st1 s2 st2,
      import_zip md5 env ids k (.archive es) st = .ok (s1, st1, k + es.length) ∧
      s1.imported = es.length ∧
      st1.catalog = st.catalog ++ importRowsOf env ids k (es.map (itemOf md5)) ∧
      import_zip md5 env ids (k + es.length) (.archive es) st1 =
        .ok (s2, st2, k + es.length + es.length) ∧
      s2.imported = es.length ∧
      st2.catalog = st1.catalog ++
        importRowsOf env ids (k + es.length) (es.map (itemOf md5)) ∧
      (importRowsOf env ids k (es.map (itemOf md5))).map (fun r => r.id) =
        ((es.map (itemOf md5)).enumFrom k).map (fun p => ids p.1) ∧
      (importRowsOf env ids (k + es.length) (es.map (itemOf md5))).map (fun r => r.id) =
        ((es.map (itemOf md5)).enumFrom (k + es.length)).map (fun p => ids p.1) ∧
      (∀ pr ∈ (importRowsOf env ids k (es.map (itemOf md5))).zip
          (importRowsOf env ids (k + es.length) (es.map (itemOf md5))),
        take8 pr.1.id ≠ take8 pr.2.id → pr.1.local_path ≠ pr.2.local_path) ∧
      (∀ p ∈ (es.map (itemOf md5)).enumFrom k,
        fileExists st2 (blobKey (ids p.1) p.2.1) = true) ∧
      (∀ p ∈ (es.map (itemOf md5)).enumFrom (k + es.length),
        fileExists st2 (blobKey (ids p.1) p.2.1) = true) := by
  refine ⟨fun inp st0 => import_zip_md5_irrel env ids m1 m2 k inp st0, ?_⟩
  obtain ⟨s1, st1, he1, hi1, -, -, hc1, hb1, hm1⟩ := import_zip_all_ok md5 env ids k st es hall
  obtain ⟨s2, st2, he2, hi2, -, -, hc2, hb2, hm2⟩ :=
    import_zip_all_ok md5 env ids (k + es.length) st1 es hall
  refine ⟨s1, st1, s2, st2, he1, hi1, hc1, he2, hi2, hc2, ?_, ?_, ?_, ?_, hb2⟩
  · simp only [importRowsOf, List.map_map]
    rfl
  · simp only [importRowsOf, List.map_map]
    rfl
  · intro pr hpr hne
    obtain ⟨n1, n2, fn, data, h1, h2⟩ :=
      importRows_zip_spec env ids (es.map (itemOf md5)) k (k + es.length) pr hpr
    rw [h1, h2] at hne ⊢
    simp only [importRow]
    intro hcontra
    exact relativePathOf_take8_inj (ids n1) (ids n2) "imported" (sanitize_filename fn)
      hne (Option.some.inj hcontra)
  · intro p hp
    exact hm2 _ (hb1 p hp)

/-- C10 counterexample: an archive with a single non-directory, supported-
extension entry whose data is corrupt.  The entry is not admitted as a new
photo (the run reports zero imported and the catalog stays empty), refuting
"every non-directory entry with a supported extension is admitted as a new
photo on every call". -/
theorem c10_corrupt_not_admitted :
    (import_zip md5Fix envFix idsFix 0
      (.archive [⟨"d.jpg", .error "Bad CRC-32 for file d.jpg"⟩]) emptyState).toOption.map
      (fun p => (p.1.imported, p.2.1.catalog.length)) = some (0, 0) := by decide

/-- C10 witness: a one-image archive imported twice on the empty hub. -/
theorem c10_witness :
    (∀ e ∈ ([⟨"a.jpg", .ok [1]⟩] : List ZipEntry), entryAddedB e = true) ∧
    ((∀ inp st0, import_zip md5Fix envFix idsFix 0 inp st0 =
        import_zip (fun _ => "other") envFix idsFix 0 inp st0) ∧
    ∃ s1 st1 s2 st2,
      import_zip md5Fix envFix idsFix 0
        (.archive [⟨"a.jpg", .ok [1]⟩]) emptyState =
        .ok (s1, st1, 0 + ([⟨"a.jpg", .ok [1]⟩] : List ZipEntry).length) ∧
      s1.imported = ([⟨"a.jpg", .ok [1]⟩] : List ZipEntry).length ∧
      st1.catalog = emptyState.catalog ++ importRowsOf envFix idsFix 0
        (([⟨"a.jpg", .ok [1]⟩] : List ZipEntry).map (itemOf md5Fix)) ∧
      import_zip md5Fix envFix idsFix (0 + ([⟨"a.jpg", .ok [1]⟩] : List ZipEntry).length)
        (.archive [⟨"a.jpg", .ok [1]⟩]) st1 =
        .ok (s2, st2, 0 + ([⟨"a.jpg", .ok [1]⟩] : List ZipEntry).length +
          ([⟨"a.jpg", .ok [1]⟩] : List ZipEntry).length) ∧
      s2.imported = ([⟨"a.jpg", .ok [1]⟩] : List ZipEntry).length ∧
      st2.catalog = st1.catalog ++ importRowsOf envFix idsFix
        (0 + ([⟨"a.jpg", .ok [1]⟩] : List ZipEntry).length)
        (([⟨"a.jpg", .ok [1]⟩] : List ZipEntry).map (itemOf md5Fix)) ∧
      (importRowsOf envFix idsFix 0
        (([⟨"a.jpg", .ok [1]⟩] : List ZipEntry).map (itemOf md5Fix))).map (fun r => r.id) =
        ((([⟨"a.jpg", .ok [1]⟩] : List ZipEntry).map (itemOf md5Fix)).enumFrom 0).map
          (fun p => idsFix p.1) ∧
      (importRowsOf envFix idsFix (0 + ([⟨"a.jpg", .ok [1]⟩] : List ZipEntry).length)
        (([⟨"a.jpg", .ok [1]⟩] : List ZipEntry).map (itemOf md5Fix))).map (fun r => r.id) =
        ((([⟨"a.jpg", .ok [1]⟩] : List ZipEntry).map (itemOf md5Fix)).enumFrom
          (0 + ([⟨"a.jpg", .ok [1]⟩] : List ZipEntry).length)).map (fun p => idsFix p.1) ∧
      (∀ pr ∈ (importRowsOf envFix idsFix 0
          (([⟨"a.jpg", .ok [1]⟩] : List ZipEntry).map (itemOf md5Fix))).zip
          (importRowsOf envFix idsFix (0 + ([⟨"a.jpg", .ok [1]⟩] : List ZipEntry).length)
            (([⟨"a.jpg", .ok [1]⟩] : List ZipEntry).map (itemOf md5Fix))),
        take8 pr.1.id ≠ take8 pr.2.id → pr.1.local_path ≠ pr.2.local_path) ∧
      (∀ p ∈ (([⟨"a.jpg", .ok [1]⟩] : List ZipEntry).map (itemOf md5Fix)).enumFrom 0,
        fileExists st2 (blobKey (idsFix p.1) p.2.1) = true) ∧
      (∀ p ∈ (([⟨"a.jpg", .ok [1]⟩] : List ZipEntry).map (itemOf md5Fix)).enumFrom
          (0 + ([⟨"a.jpg", .ok [1]⟩] : List ZipEntry).length),
        fileExists st2 (blobKey (idsFix p.1) p.2.1) = true)) :=
  ⟨by decide, c10_import_zip_no_dedup md5Fix (fun _ => "other") md5Fix envFix idsFix 0
    emptyState [⟨"a.jpg", .ok [1]⟩] (by decide)⟩

end Dashie
